import Mathlib

/-!
Verification of the Dominion game engine (`src/main.rs`).

This file gives a shallow embedding of the core game engine: the card
catalog, the per-player zone engine (deck/hand/discard/played/trashed),
the supply, the turn/phase state machine (`Game::accept_move`) and the
card-effect resolver (`Game::handle_action`).

Modelling conventions:
* Rust `Vec<Box<dyn Card>>` becomes `List Card` in the same order
  (index 0 = front of the vector; `Vec::pop` takes the *last* element).
* `u32`/`u8`/`usize` counters become `Nat`.  The only unguarded
  decrements in the source (`buys -= 1` in the buy branch, `*count -= 1`
  in the witch loop) are performed when the reachable-state invariants
  proved below show the value is positive, so truncated `Nat`
  subtraction agrees with the machine arithmetic there.
* Randomness (`rand::rng()` based shuffling, first-player choice) is
  isolated behind an explicit shuffle function `sh : List Card → List Card`
  and a first-player parameter; theorems assume `∀ l, (sh l).Perm l`,
  which is exactly what a shuffle guarantees.
* Rust functions returning `Result<(), GameError>` while mutating
  `&mut self` become functions returning the (possibly partially
  mutated) state together with an `Outcome`; `Outcome.panicked` models
  a Rust `todo!()`/`panic!` abort.
* `HashMap<String, u8>` piles become association lists
  `List (String × Nat)` with unique keys (key order only affects
  nothing observable: counting empties and keyed lookup/update).
  The panicking index expression `map[key]` of Rust is modelled as
  `(lookup key).getD 0`; every theorem touching such a read carries a
  hypothesis that the key is present, which makes the model and the
  source agree on all covered states.
-/

namespace Dominion

/-- The error enum `GameError` of the source. -/
inductive GameError
  | CardNotFound (s : String)
  | CardNotFoundInSupply (s : String)
  | CardSupplyDepleted (s : String)
  | NotEnoughMoney (required available : Nat)
  | InvalidMove (s : String)
  | FailedToDowncast (s : String)
  | EmptySupply (s : String)
deriving DecidableEq

/-- Card categories (`enum CardType`). -/
inductive CardType
  | Treasure
  | Action
  | Victory
  | Curse
deriving DecidableEq

/-- The treasure card enum (`enum Treasure`). -/
inductive Treasure
  | Copper
  | Silver
  | Gold
deriving DecidableEq

/-- The victory card enum (`enum Victory`). -/
inductive Victory
  | Estate
  | Duchy
  | Province
deriving DecidableEq

/-- The curse card enum (`enum Curse`), with its single variant. -/
inductive CurseCard
  | Curse
deriving DecidableEq

/-- The action card enum (`enum Action`). -/
inductive Action
  | Cellar
  | Chapel
  | Moat
  | Harbinger
  | Merchant
  | Vassal
  | Village
  | Workshop
  | Bureaucrat
  | Gardens
  | Militia
  | Moneylender
  | Poacher
  | Remodel
  | Smithy
  | ThroneRoom
  | Bandit
  | CouncilRoom
  | Festival
  | Laboratory
  | Library
  | Market
  | Mine
  | Sentry
  | Witch
  | Artisan
deriving DecidableEq

/-- A `Box<dyn Card>` value: one of the four concrete card enums.
The Rust code uses trait objects with runtime downcasts; a card value is
fully determined by its concrete enum variant, which this sum captures. -/
inductive Card
  | treasure (t : Treasure)
  | action (a : Action)
  | victory (v : Victory)
  | curse (c : CurseCard)
deriving DecidableEq

/-- `Treasure::value`. -/
def Treasure.value : Treasure → Nat
  | .Copper => 1
  | .Silver => 2
  | .Gold => 3

/-- `impl Card for Treasure`, `fn name`. -/
def Treasure.name : Treasure → String
  | .Copper => "Copper"
  | .Silver => "Silver"
  | .Gold => "Gold"

/-- `impl Card for Treasure`, `fn cost`. -/
def Treasure.cost : Treasure → Nat
  | .Copper => 0
  | .Silver => 3
  | .Gold => 6

/-- `impl Card for Victory`, `fn name`. -/
def Victory.name : Victory → String
  | .Estate => "Estate"
  | .Duchy => "Duchy"
  | .Province => "Province"

/-- `impl Card for Victory`, `fn cost`. -/
def Victory.cost : Victory → Nat
  | .Estate => 2
  | .Duchy => 5
  | .Province => 8

/-- `impl Card for Curse`, `fn name`. -/
def CurseCard.name : CurseCard → String
  | .Curse => "Curse"

/-- `impl Card for Curse`, `fn cost`. -/
def CurseCard.cost : CurseCard → Nat
  | .Curse => 0

/-- `impl Card for Action`, `fn name`. -/
def Action.name : Action → String
  | .Cellar => "Cellar"
  | .Chapel => "Chapel"
  | .Moat => "Moat"
  | .Harbinger => "Harbinger"
  | .Merchant => "Merchant"
  | .Vassal => "Vassal"
  | .Village => "Village"
  | .Workshop => "Workshop"
  | .Bureaucrat => "Bureaucrat"
  | .Gardens => "Gardens"
  | .Militia => "Militia"
  | .Moneylender => "Moneylender"
  | .Poacher => "Poacher"
  | .Remodel => "Remodel"
  | .Smithy => "Smithy"
  | .ThroneRoom => "Throne Room"
  | .Bandit => "Bandit"
  | .CouncilRoom => "Council Room"
  | .Festival => "Festival"
  | .Laboratory => "Laboratory"
  | .Library => "Library"
  | .Market => "Market"
  | .Mine => "Mine"
  | .Sentry => "Sentry"
  | .Witch => "Witch"
  | .Artisan => "Artisan"

/-- `impl Card for Action`, `fn cost`. -/
def Action.cost : Action → Nat
  | .Cellar => 2
  | .Chapel => 2
  | .Moat => 2
  | .Harbinger => 3
  | .Merchant => 3
  | .Vassal => 3
  | .Village => 3
  | .Workshop => 3
  | .Bureaucrat => 4
  | .Gardens => 4
  | .Militia => 4
  | .Moneylender => 4
  | .Poacher => 4
  | .Remodel => 4
  | .Smithy => 4
  | .ThroneRoom => 4
  | .Bandit => 5
  | .CouncilRoom => 5
  | .Festival => 5
  | .Laboratory => 5
  | .Library => 5
  | .Market => 5
  | .Mine => 5
  | .Sentry => 5
  | .Witch => 5
  | .Artisan => 6

/-- `Card::name` dispatched over the concrete variant. -/
def Card.name : Card → String
  | .treasure t => t.name
  | .action a => a.name
  | .victory v => v.name
  | .curse c => c.name

/-- `Card::card_type` dispatched over the concrete variant. -/
def Card.card_type : Card → CardType
  | .treasure _ => CardType.Treasure
  | .action _ => CardType.Action
  | .victory _ => CardType.Victory
  | .curse _ => CardType.Curse

/-- `Card::cost` dispatched over the concrete variant. -/
def Card.cost : Card → Nat
  | .treasure t => t.cost
  | .action a => a.cost
  | .victory v => v.cost
  | .curse c => c.cost

/-- `Card::as_treasure`: downcast, failing on any other concrete type. -/
def Card.as_treasure : Card → Except GameError Treasure
  | .treasure t => .ok t
  | _ => .error (.FailedToDowncast "Treasure")

/-- `Card::as_action`: downcast, failing on any other concrete type. -/
def Card.as_action : Card → Except GameError Action
  | .action a => .ok a
  | _ => .error (.FailedToDowncast "Action")

/-- The game phases (`enum GamePhase`). -/
inductive GamePhase
  | ActionPhase
  | TreasurePhase
  | BuyPhase
deriving DecidableEq

/-- The player state (`struct Player`). -/
structure Player where
  index : Nat
  hand : List Card
  deck : List Card
  discard : List Card
  played : List Card
  trashed : List Card
  last_discarded_card : Option Card
  actions : Nat
  buys : Nat
  coins : Nat
deriving DecidableEq

instance : Inhabited Player :=
  ⟨⟨0, [], [], [], [], [], none, 0, 0, 0⟩⟩

/-- `Player::shuffle_deck`, with the randomness isolated in `sh`. -/
def Player.shuffle_deck (sh : List Card → List Card) (p : Player) : Player :=
  { p with deck := sh p.deck }

/-- `Player::shuffle_discard`, with the randomness isolated in `sh`. -/
def Player.shuffle_discard (sh : List Card → List Card) (p : Player) : Player :=
  { p with discard := sh p.discard }

/-- `Player::prepend_discard_to_deck`: the discard becomes the bottom of
the new deck, the existing deck stays on top (`Vec::pop` draws from the
list's end, so "top" is the end of the list). -/
def Player.prepend_discard_to_deck (p : Player) : Player :=
  { p with deck := p.discard ++ p.deck, discard := [] }

/-- The `for _ in 0..num_cards_to_draw` pop-loop inside `Player::draw`:
each iteration pops the last element of `deck` (if any) and pushes it
onto `hand`; an empty deck makes the iteration a no-op. -/
def drawIter : Nat → Player → Player
  | 0, p => p
  | n + 1, p =>
    match p.deck.getLast? with
    | some card => drawIter n { p with deck := p.deck.dropLast, hand := p.hand ++ [card] }
    | none => drawIter n p

/-- `Player::draw`: reshuffle-on-demand (at most once), then pop up to
`num_cards_to_draw` cards from the top of the deck into the hand. -/
def Player.draw (sh : List Card → List Card) (num_cards_to_draw : Nat) (p : Player) : Player :=
  let p :=
    if p.deck.length < num_cards_to_draw then
      (p.shuffle_discard sh).prepend_discard_to_deck
    else p
  drawIter num_cards_to_draw p

/-- `Player::new`: 7 Coppers and 3 Estates, shuffled, then draw 5. -/
def Player.new (sh : List Card → List Card) (index : Nat) : Player :=
  let p : Player :=
    { index := index
      hand := []
      deck := List.replicate 7 (Card.treasure .Copper) ++ List.replicate 3 (Card.victory .Estate)
      discard := []
      played := []
      trashed := []
      last_discarded_card := none
      actions := 1
      buys := 1
      coins := 0 }
  (p.shuffle_deck sh).draw sh 5

/-- `Player::get_victory_points`: folds over hand, then deck, then
discard (the `played` and `trashed` zones are not visited), adding the
fixed value of each victory card, recognised by name. -/
def Player.get_victory_points (p : Player) : Nat :=
  ((p.hand ++ p.deck) ++ p.discard).foldl
    (fun sum card =>
      if card.name = "Estate" then sum + 1
      else if card.name = "Duchy" then sum + 3
      else if card.name = "Province" then sum + 6
      else sum) 0

/-- `Player::get_card_from_hand`: bounds-checked read. -/
def Player.get_card_from_hand (p : Player) (card_index : Nat) : Except GameError Card :=
  match p.hand[card_index]? with
  | none => .error (.CardNotFound "Index out of bounds")
  | some c => .ok c

/-- `Player::remove_card_from_hand`: bounds-checked `Vec::remove`,
returning the removed card together with the updated player. -/
def Player.remove_card_from_hand (p : Player) (card_index : Nat) :
    Except GameError (Card × Player) :=
  match p.hand[card_index]? with
  | none => .error (.CardNotFound "Index out of bounds")
  | some c => .ok (c, { p with hand := p.hand.eraseIdx card_index })

/-- `Player::play_card`: push onto `played`. -/
def Player.play_card (card : Card) (p : Player) : Player :=
  { p with played := p.played ++ [card] }

/-- `Player::discard_hand`: move the whole hand onto the discard. -/
def Player.discard_hand (p : Player) : Player :=
  { p with hand := [], discard := p.discard ++ p.hand }

/-- `Player::clear_played`: move the played pile onto the discard. -/
def Player.clear_played (p : Player) : Player :=
  { p with played := [], discard := p.discard ++ p.played }

/-- `Player::end_turn`: discard hand and played, reset the counters to
the `{actions 1, buys 1, coins 0}` baseline, draw a fresh hand of 5. -/
def Player.end_turn (sh : List Card → List Card) (p : Player) : Player :=
  let p := p.discard_hand
  let p := p.clear_played
  let p := { p with actions := 1, buys := 1, coins := 0 }
  p.draw sh 5

/-- `Player::has_action_cards_in_hand`. -/
def Player.has_action_cards_in_hand (p : Player) : Bool :=
  p.hand.any (fun card => card.card_type == CardType.Action)

/-- `Player::has_treasure_cards_in_hand`. -/
def Player.has_treasure_cards_in_hand (p : Player) : Bool :=
  p.hand.any (fun card => card.card_type == CardType.Treasure)

/-- `Player::get_starting_game_phase`. -/
def Player.get_starting_game_phase (p : Player) : GamePhase :=
  if p.has_action_cards_in_hand then GamePhase.ActionPhase
  else if p.has_treasure_cards_in_hand then GamePhase.TreasurePhase
  else GamePhase.BuyPhase

/-- `Player::add_to_discard`. -/
def Player.add_to_discard (card : Card) (p : Player) : Player :=
  { p with discard := p.discard ++ [card] }

/-- The supply (`struct Supply`): four name-to-count maps, one per card
category, modelled as association lists with distinct keys. -/
structure Supply where
  treasures : List (String × Nat)
  actions : List (String × Nat)
  victories : List (String × Nat)
  curses : List (String × Nat)
deriving DecidableEq

/-- `Supply::take_from_supply_pile`: look the name up in the pile;
absent name is `CardNotFoundInSupply`, a zero count is
`CardSupplyDepleted`, otherwise decrement the count by one. -/
def take_from_supply_pile (pile : List (String × Nat)) (card_name : String) :
    Except GameError (List (String × Nat)) :=
  match pile with
  | [] => .error (.CardNotFoundInSupply card_name)
  | (k, v) :: rest =>
    if k = card_name then
      if v = 0 then .error (.CardSupplyDepleted card_name)
      else .ok ((k, v - 1) :: rest)
    else
      match take_from_supply_pile rest card_name with
      | .error e => .error e
      | .ok rest' => .ok ((k, v) :: rest')

/-- `Supply::take_card`: dispatch on the card's category to the
corresponding pile. -/
def Supply.take_card (s : Supply) (card_to_take : Card) : Except GameError Supply :=
  match card_to_take.card_type with
  | CardType.Treasure =>
    match take_from_supply_pile s.treasures card_to_take.name with
    | .error e => .error e
    | .ok pile => .ok { s with treasures := pile }
  | CardType.Victory =>
    match take_from_supply_pile s.victories card_to_take.name with
    | .error e => .error e
    | .ok pile => .ok { s with victories := pile }
  | CardType.Action =>
    match take_from_supply_pile s.actions card_to_take.name with
    | .error e => .error e
    | .ok pile => .ok { s with actions := pile }
  | CardType.Curse =>
    match take_from_supply_pile s.curses card_to_take.name with
    | .error e => .error e
    | .ok pile => .ok { s with curses := pile }

/-- `Supply::num_empty_supply_piles`: count of zero-count piles across
the four category maps. -/
def Supply.num_empty_supply_piles (s : Supply) : Nat :=
  (s.treasures.filter (fun kv => kv.2 == 0)).length
    + (s.victories.filter (fun kv => kv.2 == 0)).length
    + (s.actions.filter (fun kv => kv.2 == 0)).length
    + (s.curses.filter (fun kv => kv.2 == 0)).length

/-- `Supply::check_game_over`: Province pile exhausted, or at least
three empty piles.  The Rust read `self.victories["Province"]` panics if
the key is absent; the key is present in every game the code builds, and
the theorems about this function carry that hypothesis explicitly. -/
def Supply.check_game_over (s : Supply) : Bool :=
  ((s.victories.lookup "Province").getD 0 == 0) || (3 ≤ s.num_empty_supply_piles)

/-- The move enum (`enum GameMove`). -/
inductive GameMove
  | PlayCard (card_index : Nat)
  | BuyCard (card : Card)
  | DiscardCard (card : Card)
  | EndActions
  | EndTreasures
  | EndTurn
deriving DecidableEq

/-- The game state (`struct Game`). -/
structure Game where
  players : List Player
  supply : Supply
  curr_player_index : Nat
  game_phase : GamePhase
  winner : Option Nat
deriving DecidableEq

/-- The observable result of a call into the engine.  `panicked` models
a Rust `todo!()`/`panic!` abort: control never returns to the caller. -/
inductive Outcome
  | ok
  | err (e : GameError)
  | panicked (msg : String)
deriving DecidableEq

/-- `Game::current_player_read_only` (and the borrow target of
`Game::current_player`).  Out-of-range indices would panic in Rust; all
states considered below keep `curr_player_index` in range. -/
def Game.current_player_read_only (g : Game) : Player :=
  g.players.getD g.curr_player_index default

/-- Mutation through `self.current_player()`: replace the current
player's state by `f` applied to it. -/
def Game.modify_current (g : Game) (f : Player → Player) : Game :=
  { g with players := g.players.set g.curr_player_index (f g.current_player_read_only) }

/-- Mutation of `self.players[i]`. -/
def Game.modify_player (g : Game) (i : Nat) (f : Player → Player) : Game :=
  { g with players := g.players.set i (f (g.players.getD i default)) }

/-- `Game::action_to_treasure_phase`. -/
def Game.action_to_treasure_phase (g : Game) : Except GameError Game :=
  match g.game_phase with
  | GamePhase.ActionPhase => .ok { g with game_phase := GamePhase.TreasurePhase }
  | _ => .error (.InvalidMove "Not in action phase, cannot enter treasure phase")

/-- `Game::treasure_to_buy_phase`. -/
def Game.treasure_to_buy_phase (g : Game) : Except GameError Game :=
  match g.game_phase with
  | GamePhase.TreasurePhase => .ok { g with game_phase := GamePhase.BuyPhase }
  | _ => .error (.InvalidMove "Not in treasure phase, cannot enter buy phase")

/-- The fold in `Game::end_turn` computing
`players.iter().max_by_key(|p| p.get_victory_points())`: Rust's
`max_by_key` returns the *last* maximal element. -/
def max_by_key_vp : List Player → Option Player
  | [] => none
  | p :: rest =>
    some (rest.foldl
      (fun best q => if best.get_victory_points ≤ q.get_victory_points then q else best) p)

/-- `Game::end_turn`: reset-and-redraw the retiring player, advance the
current-player index circularly, recompute the starting phase for the
new current player, then evaluate the game-over condition and record the
winner.  The Rust function returns `Result` but always `Ok`, so it is
modelled as a plain state transformer; `.unwrap()` on the maximum only
panics for an empty player list, modelled by leaving `winner` unchanged
there (all states considered have players). -/
def Game.end_turn (sh : List Card → List Card) (g : Game) : Game :=
  let g := g.modify_current (Player.end_turn sh)
  let g := { g with curr_player_index := (g.curr_player_index + 1) % g.players.length }
  let g := { g with game_phase := g.current_player_read_only.get_starting_game_phase }
  if g.supply.check_game_over then
    match max_by_key_vp g.players with
    | some w => { g with winner := some w.index }
    | none => g
  else g

/-- Decrement of the first matching entry: the
`if let Some(count) = pile.get_mut(name) { *count -= 1 }` write in the
witch loop (a missing key is silently a no-op there). -/
def decrement_pile_entry : List (String × Nat) → String → List (String × Nat)
  | [], _ => []
  | (k, v) :: rest, name =>
    if k = name then (k, v - 1) :: rest
    else (k, v) :: decrement_pile_entry rest name

/-- The curse-distribution loop of the Witch effect: `iters` remaining
iterations, `idx` the player index to curse next.  Each iteration adds a
Curse to the visited player's discard and decrements the Curse pile if
its count is still positive, then steps to the next player circularly.
The Rust read `self.supply.curses[name]` panics on a missing key; it is
modelled with a default of 0, and the theorems carry a key-present
hypothesis. -/
def witchLoop : Nat → Nat → Game → Game
  | 0, _, g => g
  | iters + 1, idx, g =>
    let g :=
      if 0 < (g.supply.curses.lookup "Curse").getD 0 then
        let g := g.modify_player idx (Player.add_to_discard (Card.curse .Curse))
        { g with
            supply := { g.supply with
              curses := decrement_pile_entry g.supply.curses "Curse" } }
      else g
    witchLoop iters ((idx + 1) % g.players.length) g

/-- `Game::handle_action`: the card-effect resolver.  `todo!()` arms
panic (they never return to the caller); Gardens returns an error. -/
def Game.handle_action (sh : List Card → List Card) (g : Game) (action : Action) :
    Outcome × Game :=
  match action with
  | Action.Cellar => (.panicked "not yet implemented", g)
  | Action.Chapel => (.panicked "not yet implemented", g)
  | Action.Moat => (.ok, g.modify_current (Player.draw sh 2))
  | Action.Harbinger => (.panicked "not yet implemented", g)
  | Action.Merchant => (.panicked "not yet implemented", g)
  | Action.Vassal => (.panicked "not yet implemented", g)
  | Action.Village =>
    let g := g.modify_current (fun p => { p with actions := p.actions + 2 })
    (.ok, g.modify_current (Player.draw sh 1))
  | Action.Workshop => (.panicked "not yet implemented", g)
  | Action.Bureaucrat => (.panicked "not yet implemented", g)
  | Action.Gardens => (.err (.InvalidMove "Cannot play Gardens as action"), g)
  | Action.Militia => (.panicked "not yet implemented", g)
  | Action.Moneylender => (.panicked "not yet implemented", g)
  | Action.Poacher => (.panicked "not yet implemented", g)
  | Action.Remodel => (.panicked "not yet implemented", g)
  | Action.Smithy => (.ok, g.modify_current (Player.draw sh 3))
  | Action.ThroneRoom => (.panicked "not yet implemented", g)
  | Action.Bandit => (.panicked "not yet implemented", g)
  | Action.CouncilRoom =>
    let g := g.modify_current (fun p => { p with buys := p.buys + 1 })
    let g := g.modify_current (Player.draw sh 4)
    let ci := g.curr_player_index
    (.ok, { g with
      players := g.players.map (fun player =>
        if player.index ≠ ci then player.draw sh 1 else player) })
  | Action.Festival =>
    let g := g.modify_current (fun p => { p with buys := p.buys + 1 })
    (.ok, g.modify_current (fun p => { p with actions := p.actions + 2 }))
  | Action.Laboratory =>
    let g := g.modify_current (fun p => { p with actions := p.actions + 1 })
    (.ok, g.modify_current (Player.draw sh 2))
  | Action.Library => (.panicked "not yet implemented", g)
  | Action.Market =>
    let g := g.modify_current (fun p => { p with buys := p.buys + 1 })
    let g := g.modify_current (fun p => { p with actions := p.actions + 1 })
    (.ok, g.modify_current (Player.draw sh 1))
  | Action.Mine => (.panicked "not yet implemented", g)
  | Action.Sentry => (.panicked "not yet implemented", g)
  | Action.Witch =>
    let g := g.modify_current (Player.draw sh 2)
    let start := (g.curr_player_index + 1) % g.players.length
    (.ok, witchLoop (g.players.length - 1) start g)
  | Action.Artisan => (.panicked "not yet implemented", g)

/-- `Game::accept_move`: the move-acceptance state machine.  Mutations
made through `&mut self` before an early `return Err(..)` persist, so
the function returns the (possibly partially mutated) state alongside
the outcome; the match arms appear in source order. -/
def Game.accept_move (sh : List Card → List Card) (g : Game) (player_index : Nat)
    (game_move : GameMove) : Outcome × Game :=
  if player_index ≠ g.curr_player_index then
    (.err (.InvalidMove "Wrong player index"), g)
  else
    match g.game_phase, game_move with
    | GamePhase.ActionPhase, GameMove.PlayCard card_index =>
      match g.current_player_read_only.get_card_from_hand card_index with
      | .error e => (.err e, g)
      | .ok card =>
        match card.card_type with
        | CardType.Treasure => (.err (.InvalidMove "Cannot play treasure in action phase"), g)
        | CardType.Action =>
          match g.current_player_read_only.remove_card_from_hand card_index with
          | .error e => (.err e, g)
          | .ok (card_to_play, p) =>
            let g := g.modify_current (fun _ => p)
            if g.current_player_read_only.actions = 0 then
              (.err (.InvalidMove "No actions left"), g)
            else
              let g := g.modify_current (fun q => { q with actions := q.actions - 1 })
              match card_to_play.as_action with
              | .error e => (.err e, g)
              | .ok action =>
                let g := g.modify_current (Player.play_card (Card.action action))
                match g.handle_action sh action with
                | (Outcome.ok, g) =>
                  if g.current_player_read_only.actions = 0
                      || !g.current_player_read_only.has_action_cards_in_hand then
                    match g.action_to_treasure_phase with
                    | .ok g' => (.ok, g')
                    | .error e => (.err e, g)
                  else (.ok, g)
                | (Outcome.err e, g) => (.err e, g)
                | (Outcome.panicked msg, g) => (.panicked msg, g)
        | CardType.Victory => (.err (.InvalidMove "Cannot play victory card"), g)
        | CardType.Curse => (.err (.InvalidMove "Cannot play curse"), g)
    | GamePhase.ActionPhase, GameMove.EndActions =>
      let g := g.modify_current (fun q => { q with actions := 0 })
      match g.action_to_treasure_phase with
      | .ok g' => (.ok, g')
      | .error e => (.err e, g)
    | GamePhase.TreasurePhase, GameMove.PlayCard card_index =>
      match g.current_player_read_only.get_card_from_hand card_index with
      | .error e => (.err e, g)
      | .ok card =>
        match card.card_type with
        | CardType.Treasure =>
          match g.current_player_read_only.remove_card_from_hand card_index with
          | .error e => (.err e, g)
          | .ok (card_to_play, p) =>
            let g := g.modify_current (fun _ => p)
            match card_to_play.as_treasure with
            | .error e => (.err e, g)
            | .ok t =>
              let g := g.modify_current (fun q => { q with coins := q.coins + t.value })
              let g := g.modify_current (Player.play_card card_to_play)
              if !g.current_player_read_only.has_treasure_cards_in_hand then
                match g.treasure_to_buy_phase with
                | .ok g' => (.ok, g')
                | .error e => (.err e, g)
              else (.ok, g)
        | CardType.Action => (.err (.InvalidMove "Cannot play action card in treasure phase"), g)
        | CardType.Victory => (.err (.InvalidMove "Cannot play victory card"), g)
        | CardType.Curse => (.err (.InvalidMove "Cannot play curse"), g)
    | GamePhase.TreasurePhase, GameMove.EndTreasures =>
      match g.treasure_to_buy_phase with
      | .ok g' => (.ok, g')
      | .error e => (.err e, g)
    | GamePhase.BuyPhase, GameMove.BuyCard card =>
      let cost := card.cost
      if g.current_player_read_only.coins < cost then
        (.err (.NotEnoughMoney cost g.current_player_read_only.coins), g)
      else
        let g := g.modify_current (fun q => { q with coins := q.coins - cost })
        match g.supply.take_card card with
        | .error e => (.err e, g)
        | .ok s =>
          let g := { g with supply := s }
          let g := g.modify_current (fun q => { q with buys := q.buys - 1 })
          let g := g.modify_current (Player.add_to_discard card)
          if g.current_player_read_only.buys = 0 then (.ok, g.end_turn sh)
          else (.ok, g)
    | _, GameMove.EndTurn => (.ok, g.end_turn sh)
    | _, _ => (.err (.InvalidMove "Invalid move for given game phase"), g)

/-- The fixed supply built by `Game::initialise_game` (association-list
order follows the source; several kingdom cards are commented out there
and hence absent). -/
def initialSupply : Supply :=
  { treasures := [("Copper", 60), ("Silver", 40), ("Gold", 30)]
    actions := [("Moat", 10), ("Village", 10), ("Smithy", 10),
                ("Festival", 10), ("Market", 10), ("Laboratory", 10)]
    victories := [("Province", 10), ("Duchy", 10), ("Estate", 10)]
    curses := [("Curse", 10)] }

/-- `Game::initialise_game`: build the players, the supply, pick the
first player (the random choice is the explicit parameter `first`), and
compute the starting phase from the first player's hand. -/
def Game.initialise_game (sh : List Card → List Card) (num_players first : Nat) : Game :=
  let players := (List.range num_players).map (fun i => Player.new sh i)
  { players := players
    supply := initialSupply
    curr_player_index := first
    game_phase := (players.getD first default).get_starting_game_phase
    winner := none }

/-- Running a list of submitted moves (each a player index and a move)
through `accept_move`, keeping the state an erroring move leaves behind,
exactly as the Rust command loop does. -/
def runMoves (sh : List Card → List Card) : Game → List (Nat × GameMove) → Game
  | g, [] => g
  | g, (i, m) :: rest => runMoves sh ((g.accept_move sh i m).2) rest

/-- The states reachable from `initialise_game` by submitting moves
(accepted or rejected) through `accept_move`. -/
inductive Reachable (sh : List Card → List Card) (num_players first : Nat) : Game → Prop
  | base : Reachable sh num_players first (Game.initialise_game sh num_players first)
  | step (g g' : Game) (i : Nat) (m : GameMove) :
      Reachable sh num_players first g →
      (g.accept_move sh i m).2 = g' →
      Reachable sh num_players first g'

/-- All cards of a player, across the five zones. -/
def allZoneCards (p : Player) : List Card :=
  p.hand ++ p.deck ++ p.discard ++ p.played ++ p.trashed

/-- Total number of cards a player holds across the five zones. -/
def totalCards (p : Player) : Nat :=
  p.hand.length + p.deck.length + p.discard.length + p.played.length + p.trashed.length

/-- Sum of the remaining counts of one supply pile. -/
def sumCounts (pile : List (String × Nat)) : Nat :=
  (pile.map Prod.snd).sum

/-- Total number of cards remaining in the whole supply. -/
def supplyTotal (s : Supply) : Nat :=
  sumCounts s.treasures + sumCounts s.actions + sumCounts s.victories + sumCounts s.curses

/-- The thirteen card values whose supply piles are configured by
`initialise_game` (every card a player can ever hold). -/
def obtainableCards : List Card :=
  [Card.treasure .Copper, Card.treasure .Silver, Card.treasure .Gold,
   Card.victory .Estate, Card.victory .Duchy, Card.victory .Province,
   Card.curse .Curse,
   Card.action .Moat, Card.action .Village, Card.action .Smithy,
   Card.action .Festival, Card.action .Market, Card.action .Laboratory]

/-- Every card in every zone of the player is an obtainable card. -/
def zonesOK (p : Player) : Prop :=
  ∀ c ∈ allZoneCards p, c ∈ obtainableCards

/-- The resting state of a player who is not on turn: baseline counters
and a full hand of five (or fewer only when deck and discard were
exhausted by the closing draw). -/
def idleOK (p : Player) : Prop :=
  p.actions = 1 ∧ p.buys = 1 ∧ p.coins = 0 ∧
    (p.hand.length = 5 ∨ (p.hand.length < 5 ∧ p.deck = [] ∧ p.discard = []))

/-- Characterisation of the pop-loop: it removes the last `n` elements
of the deck and appends them, in reversed (top-first) order, to the hand. -/
theorem drawIter_spec (n : Nat) : ∀ p : Player,
    drawIter n p =
      { p with deck := p.deck.take (p.deck.length - n),
               hand := p.hand ++ p.deck.reverse.take n } := by
  induction n with
  | zero =>
    intro p
    simp [drawIter]
  | succ n ih =>
    intro p
    rw [drawIter]
    cases h : p.deck.getLast? with
    | none =>
      have hd : p.deck = [] := List.getLast?_eq_none_iff.mp h
      rw [ih]
      simp [hd]
    | some c =>
      have hsplit : p.deck.dropLast ++ [c] = p.deck :=
        List.dropLast_append_getLast? c h
      have hdeck : p.deck.take (p.deck.length - (n + 1))
          = p.deck.dropLast.take (p.deck.dropLast.length - n) := by
        conv_lhs => rw [← hsplit]
        rw [List.take_append_of_le_length (by simp)]
        congr 1
        simp
      have hhand : p.hand ++ p.deck.reverse.take (n + 1)
          = (p.hand ++ [c]) ++ p.deck.dropLast.reverse.take n := by
        conv_lhs => rw [← hsplit]
        rw [List.reverse_concat, List.take_succ_cons, List.append_cons]
      show drawIter n { p with deck := p.deck.dropLast, hand := p.hand ++ [c] } =
        { p with deck := p.deck.take (p.deck.length - (n + 1)),
                 hand := p.hand ++ p.deck.reverse.take (n + 1) }
      rw [ih, hdeck, hhand]

/-- `Player::draw` when the deck is short: characterisation after the
single reshuffle (shuffled discard goes beneath the remaining deck). -/
theorem draw_spec_short (sh : List Card → List Card) (n : Nat) (p : Player)
    (h : p.deck.length < n) :
    p.draw sh n =
      { p with
          deck := (sh p.discard ++ p.deck).take ((sh p.discard ++ p.deck).length - n),
          hand := p.hand ++ (sh p.discard ++ p.deck).reverse.take n,
          discard := [] } := by
  unfold Player.draw
  rw [if_pos h, drawIter_spec]
  simp [Player.shuffle_discard, Player.prepend_discard_to_deck]

/-- `Player::draw` when the deck already has enough cards: no reshuffle. -/
theorem draw_spec_long (sh : List Card → List Card) (n : Nat) (p : Player)
    (h : ¬ p.deck.length < n) :
    p.draw sh n =
      { p with deck := p.deck.take (p.deck.length - n),
               hand := p.hand ++ p.deck.reverse.take n } := by
  unfold Player.draw
  rw [if_neg h, drawIter_spec]

/-- Drawing does not change the counters, the index, nor the played and
trashed piles. -/
theorem draw_frame (sh : List Card → List Card) (n : Nat) (p : Player) :
    (p.draw sh n).actions = p.actions ∧ (p.draw sh n).buys = p.buys ∧
    (p.draw sh n).coins = p.coins ∧ (p.draw sh n).index = p.index ∧
    (p.draw sh n).played = p.played ∧ (p.draw sh n).trashed = p.trashed := by
  by_cases h : p.deck.length < n
  · rw [draw_spec_short sh n p h]
    exact ⟨rfl, rfl, rfl, rfl, rfl, rfl⟩
  · rw [draw_spec_long sh n p h]
    exact ⟨rfl, rfl, rfl, rfl, rfl, rfl⟩

/-- Zone sizes after a short-deck draw: `min n` available cards reach
the hand, the discard is emptied by the reshuffle. -/
theorem draw_length_short (sh : List Card → List Card)
    (hsh : ∀ l, (sh l).Perm l) (n : Nat) (p : Player) (h : p.deck.length < n) :
    (p.draw sh n).hand.length = p.hand.length + min n (p.discard.length + p.deck.length)
    ∧ (p.draw sh n).deck.length = (p.discard.length + p.deck.length) - n
    ∧ (p.draw sh n).discard = [] := by
  rw [draw_spec_short sh n p h]
  refine ⟨?_, ?_, rfl⟩ <;>
    simp [List.length_take, (hsh p.discard).length_eq] <;> omega

/-- Zone sizes after a long-deck draw: exactly `n` cards reach the
hand and the discard is untouched. -/
theorem draw_length_long (sh : List Card → List Card) (n : Nat) (p : Player)
    (h : ¬ p.deck.length < n) :
    (p.draw sh n).hand.length = p.hand.length + n
    ∧ (p.draw sh n).deck.length = p.deck.length - n
    ∧ (p.draw sh n).discard = p.discard := by
  rw [draw_spec_long sh n p h]
  refine ⟨?_, ?_, rfl⟩ <;> simp [List.length_take] <;> omega

/-- Splitting a list into its kept prefix and its reversed drawn suffix
is a permutation of the list. -/
theorem take_sub_append_reverse_take_perm (l : List Card) (n : Nat) :
    (l.take (l.length - n) ++ l.reverse.take n).Perm l := by
  by_cases h : n ≤ l.length
  · have hrev : l.reverse = (l.drop (l.length - n)).reverse ++ (l.take (l.length - n)).reverse := by
      conv_lhs => rw [← List.take_append_drop (l.length - n) l]
      rw [List.reverse_append]
    have hlen : (l.drop (l.length - n)).reverse.length = n := by
      simp
      omega
    have htake : l.reverse.take n = (l.drop (l.length - n)).reverse := by
      rw [hrev, List.take_left' hlen]
    rw [htake]
    have h1 : (l.take (l.length - n) ++ (l.drop (l.length - n)).reverse).Perm
        (l.take (l.length - n) ++ l.drop (l.length - n)) :=
      List.Perm.append_left _ (List.reverse_perm _)
    have h2 : l.take (l.length - n) ++ l.drop (l.length - n) = l :=
      List.take_append_drop _ _
    rw [h2] at h1
    exact h1
  · have h0 : l.length - n = 0 := by omega
    have hall : l.reverse.take n = l.reverse := by
      apply List.take_all_of_le
      simp only [List.length_reverse]
      omega
    rw [h0, hall, List.take_zero, List.nil_append]
    exact List.reverse_perm l

/-- Drawing permutes the player's cards between zones: the combined
contents of the five zones form a permutation of what was there before. -/
theorem allZoneCards_draw_perm (sh : List Card → List Card)
    (hsh : ∀ l, (sh l).Perm l) (n : Nat) (p : Player) :
    (allZoneCards (p.draw sh n)).Perm (allZoneCards p) := by
  by_cases h : p.deck.length < n
  · rw [draw_spec_short sh n p h]
    simp only [allZoneCards, List.append_assoc, List.nil_append]
    apply List.Perm.append_left
    set m : List Card := sh p.discard ++ p.deck with hm
    set X : List Card := p.played ++ p.trashed with hX
    have h1 : (m.reverse.take n ++ m.take (m.length - n)).Perm (p.deck ++ p.discard) :=
      List.perm_append_comm.trans
        ((take_sub_append_reverse_take_perm m n).trans
          (((hsh p.discard).append_right p.deck).trans List.perm_append_comm))
    have h2 : (m.reverse.take n ++ (m.take (m.length - n) ++ X)).Perm
        ((p.deck ++ p.discard) ++ X) := by
      rw [← List.append_assoc]
      exact h1.append_right X
    have h3 : p.deck ++ (p.discard ++ X) = (p.deck ++ p.discard) ++ X :=
      (List.append_assoc _ _ _).symm
    rw [h3]
    exact h2
  · rw [draw_spec_long sh n p h]
    simp only [allZoneCards, List.append_assoc]
    apply List.Perm.append_left
    set X : List Card := p.discard ++ (p.played ++ p.trashed) with hX
    have h1 : (p.deck.reverse.take n ++ p.deck.take (p.deck.length - n)).Perm p.deck :=
      List.perm_append_comm.trans (take_sub_append_reverse_take_perm p.deck n)
    have h2 : (p.deck.reverse.take n ++ (p.deck.take (p.deck.length - n) ++ X)).Perm
        (p.deck ++ X) := by
      rw [← List.append_assoc]
      exact h1.append_right X
    exact h2

/-- The total card count is the length of the combined zone list. -/
theorem totalCards_eq_length (p : Player) :
    totalCards p = (allZoneCards p).length := by
  simp [totalCards, allZoneCards]
  omega

/-- Drawing conserves the player's total card count. -/
theorem totalCards_draw (sh : List Card → List Card)
    (hsh : ∀ l, (sh l).Perm l) (n : Nat) (p : Player) :
    totalCards (p.draw sh n) = totalCards p := by
  rw [totalCards_eq_length, totalCards_eq_length]
  exact (allZoneCards_draw_perm sh hsh n p).length_eq

/-- Drawing introduces no new card values into the player's zones. -/
theorem zonesOK_draw (sh : List Card → List Card)
    (hsh : ∀ l, (sh l).Perm l) (n : Nat) (p : Player) (hp : zonesOK p) :
    zonesOK (p.draw sh n) := by
  intro c hc
  exact hp c ((allZoneCards_draw_perm sh hsh n p).mem_iff.mp hc)

/-- Unfolding `Player::end_turn` into a single draw over the collected
zones. -/
theorem end_turn_eq_draw (sh : List Card → List Card) (p : Player) :
    p.end_turn sh =
      Player.draw sh 5
        { p with hand := [], discard := p.discard ++ p.hand ++ p.played,
                 played := [], actions := 1, buys := 1, coins := 0 } := rfl

/-- Closing a turn always leaves the player in the idle resting state:
baseline counters and a full (or exhausted-source) hand of five. -/
theorem idleOK_end_turn (sh : List Card → List Card)
    (hsh : ∀ l, (sh l).Perm l) (p : Player) : idleOK (p.end_turn sh) := by
  rw [end_turn_eq_draw]
  set q : Player :=
    { p with hand := [], discard := p.discard ++ p.hand ++ p.played,
             played := [], actions := 1, buys := 1, coins := 0 } with hq
  have hqhand : q.hand = [] := rfl
  obtain ⟨ha, hb, hco, _, _, _⟩ := draw_frame sh 5 q
  refine ⟨by rw [ha], by rw [hb], by rw [hco], ?_⟩
  by_cases h : q.deck.length < 5
  · obtain ⟨h1, h2, h3⟩ := draw_length_short sh hsh 5 q h
    rw [hqhand] at h1
    simp only [List.length_nil, Nat.zero_add] at h1
    by_cases h4 : 5 ≤ q.discard.length + q.deck.length
    · left
      rw [h1, Nat.min_eq_left h4]
    · right
      have h5 : q.discard.length + q.deck.length < 5 := Nat.lt_of_not_le h4
      refine ⟨?_, ?_, h3⟩
      · rw [h1, Nat.min_eq_right (Nat.le_of_lt h5)]
        exact h5
      · rw [← List.length_eq_zero, h2]
        exact Nat.sub_eq_zero_of_le (Nat.le_of_lt h5)
  · left
    obtain ⟨h1, _, _⟩ := draw_length_long sh 5 q h
    rw [h1, hqhand]
    rfl

/-- Closing a turn does not change the player's total card count or
their set of card values; the index and the trashed pile also persist. -/
theorem end_turn_cards (sh : List Card → List Card)
    (hsh : ∀ l, (sh l).Perm l) (p : Player) :
    totalCards (p.end_turn sh) = totalCards p
    ∧ (zonesOK p → zonesOK (p.end_turn sh))
    ∧ (p.end_turn sh).index = p.index
    ∧ (p.end_turn sh).trashed = p.trashed := by
  rw [end_turn_eq_draw]
  set q : Player :=
    { p with hand := [], discard := p.discard ++ p.hand ++ p.played,
             played := [], actions := 1, buys := 1, coins := 0 } with hq
  obtain ⟨_, _, _, hi, _, ht⟩ := draw_frame sh 5 q
  have hql : totalCards q = totalCards p := by
    simp [totalCards, hq]
    omega
  have hqz : ∀ c, c ∈ allZoneCards q → c ∈ allZoneCards p := by
    intro c hc
    simp only [allZoneCards, hq, List.mem_append, List.not_mem_nil, or_false] at hc ⊢
    tauto
  refine ⟨?_, ?_, by rw [hi], by rw [ht]⟩
  · rw [totalCards_draw sh hsh 5 q, hql]
  · intro hz
    exact zonesOK_draw sh hsh 5 q (fun c hc => hz c (hqz c hc))

/-- `take_from_supply_pile` succeeds exactly on a present, positive
count, and then the result is the in-place decrement of that entry. -/
theorem take_pile_ok_iff (pile : List (String × Nat)) (name : String)
    (pile' : List (String × Nat)) :
    take_from_supply_pile pile name = .ok pile' ↔
      (∃ c, pile.lookup name = some (c + 1)) ∧ pile' = decrement_pile_entry pile name := by
  induction pile generalizing pile' with
  | nil => simp [take_from_supply_pile, List.lookup]
  | cons kv rest ih =>
    obtain ⟨k, v⟩ := kv
    by_cases hk : k = name
    · subst hk
      cases v with
      | zero => simp [take_from_supply_pile, List.lookup, decrement_pile_entry]
      | succ c =>
        constructor
        · intro h
          simp only [take_from_supply_pile, if_pos rfl, if_neg (Nat.succ_ne_zero c),
            eq_self_iff_true, if_true, Except.ok.injEq] at h
          subst h
          refine ⟨⟨c, by simp [List.lookup]⟩, by simp [decrement_pile_entry]⟩
        · rintro ⟨_, h2⟩
          simp only [decrement_pile_entry, if_pos rfl] at h2
          subst h2
          simp [take_from_supply_pile]
    · have hbeq : (name == k) = false := by
        simp [BEq.beq]
        exact fun h => hk h.symm
      cases htake : take_from_supply_pile rest name with
      | error e =>
        simp only [take_from_supply_pile, if_neg hk, htake]
        constructor
        · intro h
          cases h
        · rintro ⟨⟨c, hc⟩, _⟩
          rw [List.lookup, hbeq] at hc
          obtain ⟨r', hr⟩ : ∃ r', take_from_supply_pile rest name = .ok r' := by
            rcases (ih (decrement_pile_entry rest name)).mpr ⟨⟨c, hc⟩, rfl⟩ with h
            exact ⟨_, h⟩
          rw [hr] at htake
          cases htake
      | ok r' =>
        simp only [take_from_supply_pile, if_neg hk, htake]
        obtain ⟨⟨c, hc⟩, hr⟩ := (ih r').mp htake
        constructor
        · intro h
          cases h
          refine ⟨⟨c, ?_⟩, ?_⟩
          · rw [List.lookup, hbeq]
            exact hc
          · rw [decrement_pile_entry, if_neg hk, ← hr]
        · rintro ⟨_, h2⟩
          rw [decrement_pile_entry, if_neg hk, ← hr] at h2
          rw [h2]

/-- A zero count yields the depletion error. -/
theorem take_pile_zero (pile : List (String × Nat)) (name : String)
    (h : pile.lookup name = some 0) :
    take_from_supply_pile pile name = .error (.CardSupplyDepleted name) := by
  induction pile with
  | nil => simp [List.lookup] at h
  | cons kv rest ih =>
    obtain ⟨k, v⟩ := kv
    by_cases hk : k = name
    · subst hk
      rw [List.lookup] at h
      simp at h
      subst h
      simp [take_from_supply_pile]
    · have hbeq : (name == k) = false := by
        simp [BEq.beq]
        exact fun h2 => hk h2.symm
      rw [List.lookup, hbeq] at h
      rw [take_from_supply_pile, if_neg hk, ih h]

/-- A missing key yields the not-found error. -/
theorem take_pile_none (pile : List (String × Nat)) (name : String)
    (h : pile.lookup name = none) :
    take_from_supply_pile pile name = .error (.CardNotFoundInSupply name) := by
  induction pile with
  | nil => rfl
  | cons kv rest ih =>
    obtain ⟨k, v⟩ := kv
    by_cases hk : k = name
    · subst hk
      rw [List.lookup] at h
      simp at h
    · have hbeq : (name == k) = false := by
        simp [BEq.beq]
        exact fun h2 => hk h2.symm
      rw [List.lookup, hbeq] at h
      rw [take_from_supply_pile, if_neg hk, ih h]

/-- The in-place decrement keeps the key structure of the pile. -/
theorem decrement_keys (pile : List (String × Nat)) (name : String) :
    (decrement_pile_entry pile name).map Prod.fst = pile.map Prod.fst := by
  induction pile with
  | nil => rfl
  | cons kv rest ih =>
    obtain ⟨k, v⟩ := kv
    by_cases hk : k = name
    · subst hk
      simp [decrement_pile_entry]
    · simp [decrement_pile_entry, if_neg hk, ih]

/-- The decremented entry is observable through `lookup`. -/
theorem decrement_lookup_self (pile : List (String × Nat)) (name : String) (c : Nat)
    (h : pile.lookup name = some c) :
    (decrement_pile_entry pile name).lookup name = some (c - 1) := by
  induction pile with
  | nil => simp [List.lookup] at h
  | cons kv rest ih =>
    obtain ⟨k, v⟩ := kv
    by_cases hk : k = name
    · subst hk
      rw [List.lookup] at h
      simp at h
      subst h
      simp [decrement_pile_entry, List.lookup]
    · have hbeq : (name == k) = false := by
        simp [BEq.beq]
        exact fun h2 => hk h2.symm
      rw [List.lookup, hbeq] at h
      rw [decrement_pile_entry, if_neg hk, List.lookup, hbeq]
      exact ih h

/-- Other entries are untouched by the decrement. -/
theorem decrement_lookup_ne (pile : List (String × Nat)) (name other : String)
    (h : other ≠ name) :
    (decrement_pile_entry pile name).lookup other = pile.lookup other := by
  induction pile with
  | nil => rfl
  | cons kv rest ih =>
    obtain ⟨k, v⟩ := kv
    by_cases hk : k = name
    · subst hk
      have hbeq : (other == k) = false := by
        simp [BEq.beq]
        exact h
      rw [decrement_pile_entry, if_pos rfl, List.lookup, List.lookup, hbeq]
    · rw [decrement_pile_entry, if_neg hk, List.lookup, List.lookup]
      by_cases ho : (other == k)
      · rw [ho]
      · rw [Bool.not_eq_true] at ho
        rw [ho]
        exact ih

/-- Decrementing a present positive entry lowers the pile's card count
by exactly one. -/
theorem decrement_sum (pile : List (String × Nat)) (name : String) (c : Nat)
    (h : pile.lookup name = some (c + 1)) :
    sumCounts (decrement_pile_entry pile name) + 1 = sumCounts pile := by
  induction pile with
  | nil => simp [List.lookup] at h
  | cons kv rest ih =>
    obtain ⟨k, v⟩ := kv
    by_cases hk : k = name
    · subst hk
      rw [List.lookup] at h
      simp at h
      subst h
      simp [decrement_pile_entry, sumCounts]
      omega
    · have hbeq : (name == k) = false := by
        simp [BEq.beq]
        exact fun h2 => hk h2.symm
      rw [List.lookup, hbeq] at h
      rw [decrement_pile_entry, if_neg hk]
      simp only [sumCounts, List.map_cons, List.sum_cons]
      have := ih h
      simp only [sumCounts] at this
      omega

/-- A present key belongs to the pile's key list. -/
theorem lookup_mem_keys (pile : List (String × Nat)) (name : String) (c : Nat)
    (h : pile.lookup name = some c) : name ∈ pile.map Prod.fst := by
  induction pile with
  | nil => simp [List.lookup] at h
  | cons kv rest ih =>
    obtain ⟨k, v⟩ := kv
    by_cases hk : k = name
    · subst hk
      simp
    · have hbeq : (name == k) = false := by
        simp [BEq.beq]
        exact fun h2 => hk h2.symm
      rw [List.lookup, hbeq] at h
      simp only [List.map_cons, List.mem_cons]
      exact Or.inr (ih h)

/-- The four key lists of the configured supply, as built by
`initialise_game` and preserved by every move. -/
def supplyKeysOK (s : Supply) : Prop :=
  s.treasures.map Prod.fst = ["Copper", "Silver", "Gold"]
    ∧ s.actions.map Prod.fst = ["Moat", "Village", "Smithy", "Festival", "Market", "Laboratory"]
    ∧ s.victories.map Prod.fst = ["Province", "Duchy", "Estate"]
    ∧ s.curses.map Prod.fst = ["Curse"]

/-- A successful `take_card` removes exactly one card from the supply,
keeps the key structure, and certifies the card as obtainable (its name
is one of the configured pile keys of its own category). -/
theorem take_card_ok (s : Supply) (c : Card) (s' : Supply)
    (hkeys : supplyKeysOK s) (h : s.take_card c = .ok s') :
    supplyTotal s' + 1 = supplyTotal s ∧ supplyKeysOK s' ∧ c ∈ obtainableCards := by
  obtain ⟨hk1, hk2, hk3, hk4⟩ := hkeys
  cases hc : c.card_type with
  | Treasure =>
    rw [Supply.take_card, hc] at h
    cases htake : take_from_supply_pile s.treasures c.name with
    | error e => rw [htake] at h; cases h
    | ok pile =>
      rw [htake] at h
      cases h
      obtain ⟨⟨d, hd⟩, hp⟩ := (take_pile_ok_iff _ _ _).mp htake
      subst hp
      refine ⟨?_, ⟨?_, hk2, hk3, hk4⟩, ?_⟩
      · have := decrement_sum s.treasures c.name d hd
        simp only [supplyTotal]
        omega
      · rw [decrement_keys, hk1]
      · cases c with
        | treasure t => cases t <;> simp [obtainableCards]
        | action a => cases hc
        | victory v => cases hc
        | curse cc => cases hc
  | Victory =>
    rw [Supply.take_card, hc] at h
    cases htake : take_from_supply_pile s.victories c.name with
    | error e => rw [htake] at h; cases h
    | ok pile =>
      rw [htake] at h
      cases h
      obtain ⟨⟨d, hd⟩, hp⟩ := (take_pile_ok_iff _ _ _).mp htake
      subst hp
      refine ⟨?_, ⟨hk1, hk2, ?_, hk4⟩, ?_⟩
      · have := decrement_sum s.victories c.name d hd
        simp only [supplyTotal]
        omega
      · rw [decrement_keys, hk3]
      · cases c with
        | victory v => cases v <;> simp [obtainableCards]
        | action a => cases hc
        | treasure t => cases hc
        | curse cc => cases hc
  | Curse =>
    rw [Supply.take_card, hc] at h
    cases htake : take_from_supply_pile s.curses c.name with
    | error e => rw [htake] at h; cases h
    | ok pile =>
      rw [htake] at h
      cases h
      obtain ⟨⟨d, hd⟩, hp⟩ := (take_pile_ok_iff _ _ _).mp htake
      subst hp
      refine ⟨?_, ⟨hk1, hk2, hk3, ?_⟩, ?_⟩
      · have := decrement_sum s.curses c.name d hd
        simp only [supplyTotal]
        omega
      · rw [decrement_keys, hk4]
      · cases c with
        | curse cc => cases cc; simp [obtainableCards]
        | action a => cases hc
        | treasure t => cases hc
        | victory v => cases hc
  | Action =>
    rw [Supply.take_card, hc] at h
    cases htake : take_from_supply_pile s.actions c.name with
    | error e => rw [htake] at h; cases h
    | ok pile =>
      rw [htake] at h
      cases h
      obtain ⟨⟨d, hd⟩, hp⟩ := (take_pile_ok_iff _ _ _).mp htake
      subst hp
      have hmem : c.name ∈ s.actions.map Prod.fst := lookup_mem_keys _ _ _ hd
      rw [hk2] at hmem
      refine ⟨?_, ⟨hk1, ?_, hk3, hk4⟩, ?_⟩
      · have := decrement_sum s.actions c.name d hd
        simp only [supplyTotal]
        omega
      · rw [decrement_keys, hk2]
      · cases c with
        | action a =>
          cases a <;> simp [Card.name, Action.name] at hmem <;> simp [obtainableCards]
        | treasure t => cases hc
        | victory v => cases hc
        | curse cc => cases hc

/-- A failed `take_card` leaves no trace: the supply passed back to the
caller is the original one (the function returns only an error value). -/
theorem take_card_error (s : Supply) (c : Card) (e : GameError)
    (h : s.take_card c = .error e) :
    e = .CardSupplyDepleted c.name ∨ e = .CardNotFoundInSupply c.name := by
  have aux : ∀ pile, take_from_supply_pile pile c.name = .error e →
      e = .CardSupplyDepleted c.name ∨ e = .CardNotFoundInSupply c.name := by
    intro pile
    induction pile with
    | nil =>
      intro hp
      cases hp
      exact Or.inr rfl
    | cons kv rest ih =>
      intro hp
      obtain ⟨k, v⟩ := kv
      rw [take_from_supply_pile] at hp
      by_cases hk : k = c.name
      · rw [if_pos hk] at hp
        by_cases hv : v = 0
        · rw [if_pos hv] at hp
          cases hp
          exact Or.inl rfl
        · rw [if_neg hv] at hp
          cases hp
      · rw [if_neg hk] at hp
        cases htake : take_from_supply_pile rest c.name with
        | error e2 =>
          rw [htake] at hp
          cases hp
          exact ih htake
        | ok r' => rw [htake] at hp; cases hp
  cases hc : c.card_type with
  | Treasure =>
    rw [Supply.take_card, hc] at h
    cases htake : take_from_supply_pile s.treasures c.name with
    | error e2 => rw [htake] at h; cases h; exact aux _ htake
    | ok pile => rw [htake] at h; cases h
  | Victory =>
    rw [Supply.take_card, hc] at h
    cases htake : take_from_supply_pile s.victories c.name with
    | error e2 => rw [htake] at h; cases h; exact aux _ htake
    | ok pile => rw [htake] at h; cases h
  | Action =>
    rw [Supply.take_card, hc] at h
    cases htake : take_from_supply_pile s.actions c.name with
    | error e2 => rw [htake] at h; cases h; exact aux _ htake
    | ok pile => rw [htake] at h; cases h
  | Curse =>
    rw [Supply.take_card, hc] at h
    cases htake : take_from_supply_pile s.curses c.name with
    | error e2 => rw [htake] at h; cases h; exact aux _ htake
    | ok pile => rw [htake] at h; cases h

/-- Lengths are stable under current-player mutation. -/
theorem length_modify_current (g : Game) (f : Player → Player) :
    (g.modify_current f).players.length = g.players.length :=
  List.length_set g.players g.curr_player_index (f g.current_player_read_only)

/-- Reading back the mutated current player. -/
theorem current_modify_current (g : Game) (f : Player → Player)
    (h : g.curr_player_index < g.players.length) :
    (g.modify_current f).current_player_read_only = f g.current_player_read_only := by
  simp [Game.modify_current, Game.current_player_read_only, List.getD_eq_getElem?_getD,
    List.getElem?_set_self h]

/-- Other players are untouched by current-player mutation. -/
theorem getD_modify_current_ne (g : Game) (f : Player → Player) (j : Nat)
    (h : j ≠ g.curr_player_index) :
    (g.modify_current f).players.getD j default = g.players.getD j default := by
  simp [Game.modify_current, List.getD_eq_getElem?_getD,
    List.getElem?_set_ne (fun h2 => h h2.symm)]

/-- Current-player mutation changes neither the supply, the phase, the
winner, nor the current index. -/
theorem modify_current_frame (g : Game) (f : Player → Player) :
    (g.modify_current f).supply = g.supply
    ∧ (g.modify_current f).game_phase = g.game_phase
    ∧ (g.modify_current f).winner = g.winner
    ∧ (g.modify_current f).curr_player_index = g.curr_player_index :=
  ⟨rfl, rfl, rfl, rfl⟩

/-- Two successive mutations of the current player compose. -/
theorem modify_modify (g : Game) (f f2 : Player → Player)
    (h : g.curr_player_index < g.players.length) :
    (g.modify_current f).modify_current f2 = g.modify_current (fun p => f2 (f p)) := by
  simp only [Game.modify_current, Game.current_player_read_only, List.getD_eq_getElem?_getD,
    List.getElem?_set_self h, Option.getD_some, List.set_set]

/-- The inductive invariant of reachable game states: the current index
is in range, player indices match list positions, all held cards come
from the configured supply, every player keeps at least one buy, every
player off turn is in the idle resting state, the current player has an
action available whenever the phase is the action phase, and the supply
keys are the configured ones. -/
structure Inv (g : Game) : Prop where
  curr_lt : g.curr_player_index < g.players.length
  idx : ∀ j, j < g.players.length → (g.players.getD j default).index = j
  zones : ∀ j, j < g.players.length → zonesOK (g.players.getD j default)
  buys_pos : ∀ j, j < g.players.length → 1 ≤ (g.players.getD j default).buys
  idle : ∀ j, j < g.players.length → j ≠ g.curr_player_index →
    idleOK (g.players.getD j default)
  act : g.game_phase = GamePhase.ActionPhase → 1 ≤ g.current_player_read_only.actions
  keys : supplyKeysOK g.supply

/-- An obtainable action card is one of the six implemented kingdom
cards stocked by the supply. -/
theorem obtainable_action_cases (c : Card) (hc : c ∈ obtainableCards)
    (h : c.card_type = CardType.Action) :
    c = Card.action .Moat ∨ c = Card.action .Village ∨ c = Card.action .Smithy
      ∨ c = Card.action .Festival ∨ c = Card.action .Market
      ∨ c = Card.action .Laboratory := by
  simp only [obtainableCards, List.mem_cons, List.not_mem_nil, or_false] at hc
  rcases hc with rfl | rfl | rfl | rfl | rfl | rfl | rfl | rfl | rfl | rfl | rfl | rfl | rfl <;>
    revert h <;> decide

/-- Effect resolution for the six obtainable action cards: always `ok`,
mutating only the current player, conserving that player's cards, never
losing a buy, and leaving the rest of the game state alone. -/
theorem handle_action_six (sh : List Card → List Card)
    (hsh : ∀ l, (sh l).Perm l) (g : Game) (a : Action)
    (hcur : g.curr_player_index < g.players.length)
    (ha : a = Action.Moat ∨ a = Action.Village ∨ a = Action.Smithy
      ∨ a = Action.Festival ∨ a = Action.Market ∨ a = Action.Laboratory) :
    ∃ f : Player → Player,
      g.handle_action sh a = (Outcome.ok, g.modify_current f)
      ∧ (∀ p, totalCards (f p) = totalCards p)
      ∧ (∀ p, zonesOK p → zonesOK (f p))
      ∧ (∀ p, (f p).index = p.index)
      ∧ (∀ p, p.buys ≤ (f p).buys) := by
  rcases ha with rfl | rfl | rfl | rfl | rfl | rfl
  · refine ⟨Player.draw sh 2, rfl, ?_, ?_, ?_, ?_⟩
    · exact fun p => totalCards_draw sh hsh 2 p
    · exact fun p hp => zonesOK_draw sh hsh 2 p hp
    · exact fun p => (draw_frame sh 2 p).2.2.2.1
    · exact fun p => le_of_eq ((draw_frame sh 2 p).2.1).symm
  · refine ⟨fun p => Player.draw sh 1 { p with actions := p.actions + 2 },
      by rw [Game.handle_action, modify_modify _ _ _ hcur], ?_, ?_, ?_, ?_⟩
    · intro p
      rw [totalCards_draw sh hsh 1]
      rfl
    · intro p hp
      apply zonesOK_draw sh hsh 1
      exact hp
    · intro p
      rw [(draw_frame sh 1 _).2.2.2.1]
    · intro p
      rw [(draw_frame sh 1 _).2.1]
  · refine ⟨Player.draw sh 3, rfl, ?_, ?_, ?_, ?_⟩
    · exact fun p => totalCards_draw sh hsh 3 p
    · exact fun p hp => zonesOK_draw sh hsh 3 p hp
    · exact fun p => (draw_frame sh 3 p).2.2.2.1
    · exact fun p => le_of_eq ((draw_frame sh 3 p).2.1).symm
  · refine ⟨fun p => { p with buys := p.buys + 1, actions := p.actions + 2 },
      by rw [Game.handle_action, modify_modify _ _ _ hcur], ?_, ?_, ?_, ?_⟩
    · intro p
      rfl
    · intro p hp
      exact hp
    · intro p
      rfl
    · intro p
      exact Nat.le_succ _
  · refine ⟨fun p => Player.draw sh 1 { p with buys := p.buys + 1, actions := p.actions + 1 },
      by rw [Game.handle_action, modify_modify _ _ _ hcur, modify_modify _ _ _ hcur], ?_, ?_, ?_, ?_⟩
    · intro p
      rw [totalCards_draw sh hsh 1]
      rfl
    · intro p hp
      apply zonesOK_draw sh hsh 1
      exact hp
    · intro p
      rw [(draw_frame sh 1 _).2.2.2.1]
    · intro p
      rw [(draw_frame sh 1 _).2.1]
      exact Nat.le_succ _
  · refine ⟨fun p => Player.draw sh 2 { p with actions := p.actions + 1 },
      by rw [Game.handle_action, modify_modify _ _ _ hcur], ?_, ?_, ?_, ?_⟩
    · intro p
      rw [totalCards_draw sh hsh 2]
      rfl
    · intro p hp
      apply zonesOK_draw sh hsh 2
      exact hp
    · intro p
      rw [(draw_frame sh 2 _).2.2.2.1]
    · intro p
      rw [(draw_frame sh 2 _).2.1]

/-- Turn closure at game level: the retiring player is reset and
redrawn, play passes to the next player circularly, the supply is
untouched, every player's card total persists, the invariant survives,
and the incoming player is found in the idle resting state. -/
theorem end_turn_step (sh : List Card → List Card) (hsh : ∀ l, (sh l).Perm l) (g : Game)
    (hcur : g.curr_player_index < g.players.length)
    (hidx : ∀ j, j < g.players.length → (g.players.getD j default).index = j)
    (hzones : ∀ j, j < g.players.length → zonesOK (g.players.getD j default))
    (hidle : ∀ j, j < g.players.length → j ≠ g.curr_player_index →
      idleOK (g.players.getD j default))
    (hkeys : supplyKeysOK g.supply) :
    (g.end_turn sh).players.length = g.players.length
    ∧ (g.end_turn sh).supply = g.supply
    ∧ (g.end_turn sh).curr_player_index = (g.curr_player_index + 1) % g.players.length
    ∧ (∀ j, j < g.players.length →
        totalCards ((g.end_turn sh).players.getD j default)
          = totalCards (g.players.getD j default))
    ∧ Inv (g.end_turn sh)
    ∧ idleOK ((g.end_turn sh).current_player_read_only) := by
  have hlen1 : (g.modify_current (Player.end_turn sh)).players.length = g.players.length :=
    length_modify_current g _
  have hfields : (g.end_turn sh).players = (g.modify_current (Player.end_turn sh)).players
      ∧ (g.end_turn sh).supply = g.supply
      ∧ (g.end_turn sh).curr_player_index = (g.curr_player_index + 1) % g.players.length := by
    unfold Game.end_turn
    simp only [Game.modify_current, List.length_set]
    split
    · split
      · exact ⟨rfl, rfl, rfl⟩
      · exact ⟨rfl, rfl, rfl⟩
    · exact ⟨rfl, rfl, rfl⟩
  obtain ⟨hp, hs, hc⟩ := hfields
  have hNpos : 0 < g.players.length := Nat.lt_of_le_of_lt (Nat.zero_le _) hcur
  have hnewlt : (g.curr_player_index + 1) % g.players.length < g.players.length :=
    Nat.mod_lt _ hNpos
  have hget : ∀ j, (g.end_turn sh).players.getD j default
      = if j = g.curr_player_index then (g.current_player_read_only.end_turn sh)
        else g.players.getD j default := by
    intro j
    rw [hp]
    by_cases hjc : j = g.curr_player_index
    · subst hjc
      rw [if_pos rfl]
      exact current_modify_current g _ hcur
    · rw [if_neg hjc]
      exact getD_modify_current_ne g _ j hjc
  have hlen : (g.end_turn sh).players.length = g.players.length := by rw [hp, hlen1]
  have hcurprops := idleOK_end_turn sh hsh g.current_player_read_only
  obtain ⟨hct, hcz, hci, _⟩ := end_turn_cards sh hsh g.current_player_read_only
  have hnewplayer : (g.end_turn sh).current_player_read_only
      = (if (g.curr_player_index + 1) % g.players.length = g.curr_player_index
          then g.current_player_read_only.end_turn sh
          else g.players.getD ((g.curr_player_index + 1) % g.players.length) default) := by
    show (g.end_turn sh).players.getD (g.end_turn sh).curr_player_index default = _
    rw [hc, hget]
  have hnewidle : idleOK ((g.end_turn sh).current_player_read_only) := by
    rw [hnewplayer]
    by_cases hsame : (g.curr_player_index + 1) % g.players.length = g.curr_player_index
    · rw [if_pos hsame]
      exact hcurprops
    · rw [if_neg hsame]
      exact hidle _ hnewlt hsame
  refine ⟨hlen, hs, hc, ?_, ?_, hnewidle⟩
  · intro j hj
    rw [hget j]
    by_cases hjc : j = g.curr_player_index
    · subst hjc
      rw [if_pos rfl, hct]
      rfl
    · rw [if_neg hjc]
  · refine ⟨?_, ?_, ?_, ?_, ?_, ?_, ?_⟩
    · rw [hlen, hc]
      exact hnewlt
    · intro j hj
      rw [hlen] at hj
      rw [hget j]
      by_cases hjc : j = g.curr_player_index
      · subst hjc
        rw [if_pos rfl, hci]
        exact hidx _ hcur
      · rw [if_neg hjc]
        exact hidx _ hj
    · intro j hj
      rw [hlen] at hj
      rw [hget j]
      by_cases hjc : j = g.curr_player_index
      · subst hjc
        rw [if_pos rfl]
        exact hcz (hzones _ hcur)
      · rw [if_neg hjc]
        exact hzones _ hj
    · intro j hj
      rw [hlen] at hj
      rw [hget j]
      by_cases hjc : j = g.curr_player_index
      · subst hjc
        rw [if_pos rfl]
        exact le_of_eq hcurprops.2.1.symm
      · rw [if_neg hjc]
        exact le_of_eq ((hidle _ hj hjc).2.1).symm
    · intro j hj hne
      rw [hlen] at hj
      rw [hc] at hne
      rw [hget j]
      by_cases hjc : j = g.curr_player_index
      · subst hjc
        rw [if_pos rfl]
        exact hcurprops
      · rw [if_neg hjc]
        exact hidle _ hj hjc
    · intro _
      exact le_of_eq hnewidle.1.symm
    · rw [hs]
      exact hkeys

/-- What one call to `accept_move` must establish, relative to the
pre-state `g`: the invariant survives, the call never panics, the
player list keeps its length, the supply never grows, and every
player's card total changes exactly by the cards that left the supply
towards the player on turn (zero for everyone else). -/
def StepOK (g g' : Game) (o : Outcome) : Prop :=
  Inv g'
  ∧ (∀ msg, o ≠ Outcome.panicked msg)
  ∧ g'.players.length = g.players.length
  ∧ supplyTotal g'.supply ≤ supplyTotal g.supply
  ∧ ∀ j, j < g.players.length →
      totalCards (g'.players.getD j default)
        = totalCards (g.players.getD j default)
          + (if j = g.curr_player_index then
              supplyTotal g.supply - supplyTotal g'.supply else 0)

/-- A call that leaves the state untouched satisfies `StepOK`. -/
theorem StepOK_same (g : Game) (hInv : Inv g) (o : Outcome)
    (ho : ∀ msg, o ≠ Outcome.panicked msg) : StepOK g g o := by
  refine ⟨hInv, ho, rfl, le_refl _, ?_⟩
  intro j hj
  rw [Nat.sub_self]
  simp

/-- A call that only moves the phase forward satisfies `StepOK`,
provided the action-phase guard is re-established. -/
theorem StepOK_phase (g : Game) (hInv : Inv g) (ph : GamePhase)
    (hA : ph = GamePhase.ActionPhase → 1 ≤ g.current_player_read_only.actions) :
    StepOK g { g with game_phase := ph } Outcome.ok := by
  obtain ⟨h1, h2, h3, h4, h5, _, h7⟩ := hInv
  have hInv2 : Inv { g with game_phase := ph } := ⟨h1, h2, h3, h4, h5, hA, h7⟩
  have hno : ∀ msg, Outcome.ok ≠ Outcome.panicked msg := fun msg h => by cases h
  refine ⟨hInv2, hno, rfl, le_refl _, ?_⟩
  intro j hj
  rw [Nat.sub_self]
  simp

/-- The generic successful-mutation builder: the current player is
replaced by `F` of their old state, the supply becomes `s'`, and the
phase becomes `ph`; the listed side conditions re-establish `StepOK`. -/
theorem StepOK_build (sh : List Card → List Card) (g : Game) (hInv : Inv g)
    (F : Player → Player) (ph : GamePhase) (s' : Supply) (o : Outcome)
    (ho : ∀ msg, o ≠ Outcome.panicked msg)
    (hS : supplyTotal s' ≤ supplyTotal g.supply)
    (hK : supplyKeysOK s')
    (hT : totalCards (F g.current_player_read_only)
        = totalCards g.current_player_read_only
          + (supplyTotal g.supply - supplyTotal s'))
    (hZ : zonesOK (F g.current_player_read_only))
    (hI : (F g.current_player_read_only).index = g.current_player_read_only.index)
    (hB : 1 ≤ (F g.current_player_read_only).buys)
    (hA : ph = GamePhase.ActionPhase → 1 ≤ (F g.current_player_read_only).actions) :
    StepOK g { g.modify_current F with game_phase := ph, supply := s' } o := by
  obtain ⟨h1, h2, h3, h4, h5, _, h7⟩ := hInv
  have hgetc : (g.modify_current F).players.getD g.curr_player_index default
      = F g.current_player_read_only := current_modify_current g F h1
  have hgetn : ∀ j, j ≠ g.curr_player_index →
      (g.modify_current F).players.getD j default = g.players.getD j default :=
    fun j hj => getD_modify_current_ne g F j hj
  have hlen : (g.modify_current F).players.length = g.players.length :=
    length_modify_current g F
  refine ⟨⟨?_, ?_, ?_, ?_, ?_, ?_, hK⟩, ho, hlen, hS, ?_⟩
  · rw [hlen]
    exact h1
  · intro j hj
    rw [hlen] at hj
    by_cases hjc : j = g.curr_player_index
    · subst hjc
      rw [hgetc, hI]
      exact h2 _ h1
    · rw [hgetn j hjc]
      exact h2 _ hj
  · intro j hj
    rw [hlen] at hj
    by_cases hjc : j = g.curr_player_index
    · subst hjc
      rw [hgetc]
      exact hZ
    · rw [hgetn j hjc]
      exact h3 _ hj
  · intro j hj
    rw [hlen] at hj
    by_cases hjc : j = g.curr_player_index
    · subst hjc
      rw [hgetc]
      exact hB
    · rw [hgetn j hjc]
      exact h4 _ hj
  · intro j hj hne
    rw [hlen] at hj
    rw [hgetn j hne]
    exact h5 _ hj hne
  · intro hph
    show 1 ≤ ((g.modify_current F).players.getD g.curr_player_index default).actions
    rw [hgetc]
    exact hA hph
  · intro j hj
    by_cases hjc : j = g.curr_player_index
    · subst hjc
      rw [if_pos rfl]
      show totalCards ((g.modify_current F).players.getD g.curr_player_index default) = _
      rw [hgetc]
      exact hT
    · rw [if_neg hjc, Nat.add_zero]
      show totalCards ((g.modify_current F).players.getD j default) = _
      rw [hgetn j hjc]

/-- Closing the turn after an already-validated mutation keeps
`StepOK` (the closing itself moves no cards and touches no supply). -/
theorem StepOK_end_turn_after (sh : List Card → List Card)
    (hsh : ∀ l, (sh l).Perm l) (g gmid : Game)
    (hmid : StepOK g gmid Outcome.ok)
    (hc : gmid.curr_player_index = g.curr_player_index) :
    StepOK g (gmid.end_turn sh) Outcome.ok := by
  obtain ⟨hInvMid, _, hlen, hS, htot⟩ := hmid
  obtain ⟨m1, m2, m3, m4, m5, _, m7⟩ := hInvMid
  obtain ⟨e1, e2, e3, e4, e5, _⟩ :=
    end_turn_step sh hsh gmid m1 m2 m3 m5 m7
  have hno : ∀ msg, Outcome.ok ≠ Outcome.panicked msg := fun msg h => by cases h
  have hlen2 : (gmid.end_turn sh).players.length = g.players.length := by rw [e1, hlen]
  have hS2 : supplyTotal (gmid.end_turn sh).supply ≤ supplyTotal g.supply := by
    rw [e2]
    exact hS
  refine ⟨e5, hno, hlen2, hS2, ?_⟩
  intro j hj
  have hj2 : j < gmid.players.length := by rw [hlen]; exact hj
  have := e4 j hj2
  rw [this, htot j hj, e2]

/-- A card whose runtime category is `Action` is a concrete action and
downcasts successfully. -/
theorem as_action_of_type (card : Card) (h : card.card_type = CardType.Action) :
    ∃ a, card = Card.action a ∧ card.as_action = .ok a := by
  cases card with
  | action a => exact ⟨a, rfl, rfl⟩
  | treasure t => cases h
  | victory v => cases h
  | curse c => cases h

/-- A card whose runtime category is `Treasure` is a concrete treasure
and downcasts successfully. -/
theorem as_treasure_of_type (card : Card) (h : card.card_type = CardType.Treasure) :
    ∃ t, card = Card.treasure t ∧ card.as_treasure = .ok t := by
  cases card with
  | treasure t => exact ⟨t, rfl, rfl⟩
  | action a => cases h
  | victory v => cases h
  | curse c => cases h

/-- Successful in-hand reads certify the indexed element. -/
theorem get_card_ok (p : Player) (ci : Nat) (card : Card)
    (h : p.get_card_from_hand ci = .ok card) : p.hand[ci]? = some card := by
  unfold Player.get_card_from_hand at h
  cases h2 : p.hand[ci]? with
  | none => rw [h2] at h; cases h
  | some c => rw [h2] at h; cases h; rfl

/-- Successful in-hand removal yields the indexed element and erases it. -/
theorem remove_card_eq (p : Player) (ci : Nat) (card : Card)
    (h : p.hand[ci]? = some card) :
    p.remove_card_from_hand ci = .ok (card, { p with hand := p.hand.eraseIdx ci }) := by
  unfold Player.remove_card_from_hand
  rw [h]

/-- Cards read from the current player's hand are obtainable whenever
the invariant holds. -/
theorem current_hand_obtainable (g : Game) (hInv : Inv g) (ci : Nat) (card : Card)
    (h : g.current_player_read_only.hand[ci]? = some card) : card ∈ obtainableCards := by
  have hz := hInv.zones _ hInv.curr_lt
  apply hz
  have hm : card ∈ g.current_player_read_only.hand := List.getElem?_mem h
  show card ∈ allZoneCards (g.players.getD g.curr_player_index default)
  have : allZoneCards (g.players.getD g.curr_player_index default)
      = allZoneCards g.current_player_read_only := rfl
  rw [this]
  simp only [allZoneCards, List.mem_append]
  exact Or.inl (Or.inl (Or.inl (Or.inl hm)))

/-- Phase transition out of the action phase, when the phase is known. -/
theorem action_to_treasure_eq (g : Game) (h : g.game_phase = GamePhase.ActionPhase) :
    g.action_to_treasure_phase = .ok { g with game_phase := GamePhase.TreasurePhase } := by
  unfold Game.action_to_treasure_phase
  rw [h]

/-- Phase transition out of the treasure phase, when the phase is known. -/
theorem treasure_to_buy_eq (g : Game) (h : g.game_phase = GamePhase.TreasurePhase) :
    g.treasure_to_buy_phase = .ok { g with game_phase := GamePhase.BuyPhase } := by
  unfold Game.treasure_to_buy_phase
  rw [h]

/-- Like `StepOK_build`, but for a mutation that zeroes the current
player's buys and therefore immediately closes the turn: the turn
closure itself restores the invariant, so no buy-count or action-count
side condition is needed. -/
theorem StepOK_build_end_turn (sh : List Card → List Card)
    (hsh : ∀ l, (sh l).Perm l) (g : Game) (hInv : Inv g)
    (F : Player → Player) (ph : GamePhase) (s' : Supply)
    (hS : supplyTotal s' ≤ supplyTotal g.supply)
    (hK : supplyKeysOK s')
    (hT : totalCards (F g.current_player_read_only)
        = totalCards g.current_player_read_only
          + (supplyTotal g.supply - supplyTotal s'))
    (hZ : zonesOK (F g.current_player_read_only))
    (hI : (F g.current_player_read_only).index = g.current_player_read_only.index) :
    StepOK g (({ g.modify_current F with game_phase := ph, supply := s' }).end_turn sh)
      Outcome.ok := by
  obtain ⟨h1, h2, h3, h4, h5, _, h7⟩ := hInv
  set gmid : Game := { g.modify_current F with game_phase := ph, supply := s' } with hgmid
  have hgetc : gmid.players.getD g.curr_player_index default
      = F g.current_player_read_only := current_modify_current g F h1
  have hgetn : ∀ j, j ≠ g.curr_player_index →
      gmid.players.getD j default = g.players.getD j default :=
    fun j hj => getD_modify_current_ne g F j hj
  have hlen : gmid.players.length = g.players.length := length_modify_current g F
  have hcurm : gmid.curr_player_index = g.curr_player_index := rfl
  have hcur2 : gmid.curr_player_index < gmid.players.length := by
    rw [hcurm, hlen]
    exact h1
  have hidx2 : ∀ j, j < gmid.players.length → (gmid.players.getD j default).index = j := by
    intro j hj
    rw [hlen] at hj
    by_cases hjc : j = g.curr_player_index
    · subst hjc
      rw [hgetc, hI]
      exact h2 _ h1
    · rw [hgetn j hjc]
      exact h2 _ hj
  have hzones2 : ∀ j, j < gmid.players.length → zonesOK (gmid.players.getD j default) := by
    intro j hj
    rw [hlen] at hj
    by_cases hjc : j = g.curr_player_index
    · subst hjc
      rw [hgetc]
      exact hZ
    · rw [hgetn j hjc]
      exact h3 _ hj
  have hidle2 : ∀ j, j < gmid.players.length → j ≠ gmid.curr_player_index →
      idleOK (gmid.players.getD j default) := by
    intro j hj hne
    rw [hlen] at hj
    rw [hcurm] at hne
    rw [hgetn j hne]
    exact h5 _ hj hne
  have hkeys2 : supplyKeysOK gmid.supply := hK
  obtain ⟨e1, e2, e3, e4, e5, _⟩ :=
    end_turn_step sh hsh gmid hcur2 hidx2 hzones2 hidle2 hkeys2
  have hno : ∀ msg, Outcome.ok ≠ Outcome.panicked msg := fun msg h => by cases h
  have hsup : (gmid.end_turn sh).supply = s' := e2
  have hlen2 : (gmid.end_turn sh).players.length = g.players.length := by rw [e1, hlen]
  refine ⟨e5, hno, hlen2, by rw [hsup]; exact hS, ?_⟩
  intro j hj
  have hj2 : j < gmid.players.length := by rw [hlen]; exact hj
  rw [e4 j hj2, hsup]
  by_cases hjc : j = g.curr_player_index
  · subst hjc
    rw [if_pos rfl, hgetc]
    exact hT
  · rw [if_neg hjc, hgetn j hjc, Nat.add_zero]

/-- An explicit turn close from an invariant state keeps `StepOK`. -/
theorem StepOK_plain_end_turn (sh : List Card → List Card)
    (hsh : ∀ l, (sh l).Perm l) (g : Game) (hInv : Inv g) :
    StepOK g (g.end_turn sh) Outcome.ok := by
  obtain ⟨h1, h2, h3, h4, h5, _, h7⟩ := hInv
  obtain ⟨e1, e2, e3, e4, e5, _⟩ := end_turn_step sh hsh g h1 h2 h3 h5 h7
  have hno : ∀ msg, Outcome.ok ≠ Outcome.panicked msg := fun msg h => by cases h
  refine ⟨e5, hno, e1, le_of_eq (by rw [e2]), ?_⟩
  intro j hj
  rw [e4 j hj, e2, Nat.sub_self]
  simp

/-- Interleaving a supply write with a current-player mutation (stated
over the fully expanded record form that appears in goals). -/
theorem modify_current_supply_comm (g : Game) (f : Player → Player) (s' : Supply) :
    (Game.modify_current
        { players := g.players, supply := s', curr_player_index := g.curr_player_index,
          game_phase := g.game_phase, winner := g.winner } f)
      = { players := (g.modify_current f).players, supply := s',
          curr_player_index := (g.modify_current f).curr_player_index,
          game_phase := (g.modify_current f).game_phase,
          winner := (g.modify_current f).winner } := rfl

/-- Playing a card onto the played pile adds exactly one card. -/
theorem totalCards_play_card (c : Card) (q : Player) :
    totalCards (Player.play_card c q) = totalCards q + 1 := by
  simp [totalCards, Player.play_card]
  omega

/-- Gaining a card to the discard adds exactly one card. -/
theorem totalCards_add_discard (c : Card) (q : Player) :
    totalCards (Player.add_to_discard c q) = totalCards q + 1 := by
  simp [totalCards, Player.add_to_discard]
  omega

/-- Playing an obtainable card keeps all zones obtainable. -/
theorem zonesOK_play_card (c : Card) (q : Player) (hq : zonesOK q)
    (hc : c ∈ obtainableCards) : zonesOK (Player.play_card c q) := by
  intro x hx
  by_cases hxc : x = c
  · subst hxc
    exact hc
  · apply hq x
    simp only [allZoneCards, Player.play_card, List.mem_append, List.mem_singleton] at hx ⊢
    tauto

/-- Gaining an obtainable card keeps all zones obtainable. -/
theorem zonesOK_add_discard (c : Card) (q : Player) (hq : zonesOK q)
    (hc : c ∈ obtainableCards) : zonesOK (Player.add_to_discard c q) := by
  intro x hx
  by_cases hxc : x = c
  · subst hxc
    exact hc
  · apply hq x
    simp only [allZoneCards, Player.add_to_discard, List.mem_append, List.mem_singleton] at hx ⊢
    tauto

/-- Removing a hand card keeps all zones obtainable. -/
theorem zonesOK_erase (q : Player) (i : Nat) (hq : zonesOK q) :
    zonesOK { q with hand := q.hand.eraseIdx i } := by
  intro x hx
  apply hq x
  have himp : x ∈ q.hand.eraseIdx i → x ∈ q.hand := List.mem_of_mem_eraseIdx
  simp only [allZoneCards, List.mem_append] at hx ⊢
  tauto

/-- The six-card effect table, in inverted (result-characterising) form. -/
theorem handle_action_six_spec (sh : List Card → List Card)
    (hsh : ∀ l, (sh l).Perm l) (g0 : Game) (a : Action)
    (hcur : g0.curr_player_index < g0.players.length)
    (hsix : a = Action.Moat ∨ a = Action.Village ∨ a = Action.Smithy
      ∨ a = Action.Festival ∨ a = Action.Market ∨ a = Action.Laboratory)
    (o : Outcome) (g1 : Game) (h : g0.handle_action sh a = (o, g1)) :
    o = Outcome.ok ∧ ∃ f, g1 = g0.modify_current f
      ∧ (∀ p, totalCards (f p) = totalCards p)
      ∧ (∀ p, zonesOK p → zonesOK (f p))
      ∧ (∀ p, (f p).index = p.index)
      ∧ (∀ p, p.buys ≤ (f p).buys) := by
  obtain ⟨f, hh, h1, h2, h3, h4⟩ := handle_action_six sh hsh g0 a hcur hsix
  rw [hh] at h
  injection h with ho hg
  exact ⟨ho.symm, f, hg.symm, h1, h2, h3, h4⟩

/-- An obtainable action enum value is one of the six stocked cards. -/
theorem obtainable_action_enum (a : Action) (hc : Card.action a ∈ obtainableCards) :
    a = Action.Moat ∨ a = Action.Village ∨ a = Action.Smithy
      ∨ a = Action.Festival ∨ a = Action.Market ∨ a = Action.Laboratory := by
  cases a <;> revert hc <;> decide

/-- Specialisation of `StepOK_build` for moves that touch neither the
supply nor the phase. -/
theorem StepOK_build_plain (sh : List Card → List Card) (g : Game) (hInv : Inv g)
    (F : Player → Player) (o : Outcome)
    (ho : ∀ msg, o ≠ Outcome.panicked msg)
    (hT : totalCards (F g.current_player_read_only) = totalCards g.current_player_read_only)
    (hZ : zonesOK (F g.current_player_read_only))
    (hI : (F g.current_player_read_only).index = g.current_player_read_only.index)
    (hB : 1 ≤ (F g.current_player_read_only).buys)
    (hA : g.game_phase = GamePhase.ActionPhase → 1 ≤ (F g.current_player_read_only).actions) :
    StepOK g (g.modify_current F) o := by
  have h := StepOK_build sh g hInv F g.game_phase g.supply o ho (le_refl _) hInv.keys
    (by rw [hT, Nat.sub_self, Nat.add_zero]) hZ hI hB hA
  exact h

/-- Reading the current player ignores supply writes (stated over the
fully expanded record form that appears in goals). -/
theorem current_supply (g : Game) (s' : Supply) :
    (Game.current_player_read_only
        { players := g.players, supply := s', curr_player_index := g.curr_player_index,
          game_phase := g.game_phase, winner := g.winner })
      = g.current_player_read_only := rfl

/-- Specialisation of `StepOK_build` for a supply-changing move that
keeps the phase. -/
theorem StepOK_build_supply (sh : List Card → List Card) (g : Game) (hInv : Inv g)
    (F : Player → Player) (s' : Supply) (o : Outcome)
    (ho : ∀ msg, o ≠ Outcome.panicked msg)
    (hS : supplyTotal s' ≤ supplyTotal g.supply)
    (hK : supplyKeysOK s')
    (hT : totalCards (F g.current_player_read_only)
        = totalCards g.current_player_read_only
          + (supplyTotal g.supply - supplyTotal s'))
    (hZ : zonesOK (F g.current_player_read_only))
    (hI : (F g.current_player_read_only).index = g.current_player_read_only.index)
    (hB : 1 ≤ (F g.current_player_read_only).buys)
    (hA : g.game_phase = GamePhase.ActionPhase → 1 ≤ (F g.current_player_read_only).actions) :
    StepOK g { g.modify_current F with supply := s' } o := by
  have h := StepOK_build sh g hInv F g.game_phase s' o ho hS hK hT hZ hI hB hA
  exact h

/-- Specialisation of `StepOK_build_end_turn` for a supply-changing
move that closes the turn. -/
theorem StepOK_build_supply_end_turn (sh : List Card → List Card)
    (hsh : ∀ l, (sh l).Perm l) (g : Game) (hInv : Inv g)
    (F : Player → Player) (s' : Supply)
    (hS : supplyTotal s' ≤ supplyTotal g.supply)
    (hK : supplyKeysOK s')
    (hT : totalCards (F g.current_player_read_only)
        = totalCards g.current_player_read_only
          + (supplyTotal g.supply - supplyTotal s'))
    (hZ : zonesOK (F g.current_player_read_only))
    (hI : (F g.current_player_read_only).index = g.current_player_read_only.index) :
    StepOK g (({ g.modify_current F with supply := s' }).end_turn sh) Outcome.ok := by
  have h := StepOK_build_end_turn sh hsh g hInv F g.game_phase s' hS hK hT hZ hI
  exact h

/-- Phase transition of a current-player-modified state. -/
theorem action_to_treasure_modify (g : Game) (F : Player → Player)
    (h : g.game_phase = GamePhase.ActionPhase) :
    (g.modify_current F).action_to_treasure_phase
      = .ok { g.modify_current F with game_phase := GamePhase.TreasurePhase } :=
  action_to_treasure_eq _ h

/-- Phase transition of a current-player-modified state. -/
theorem treasure_to_buy_modify (g : Game) (F : Player → Player)
    (h : g.game_phase = GamePhase.TreasurePhase) :
    (g.modify_current F).treasure_to_buy_phase
      = .ok { g.modify_current F with game_phase := GamePhase.BuyPhase } :=
  treasure_to_buy_eq _ h

set_option maxHeartbeats 1000000 in
theorem accept_move_step (sh : List Card → List Card) (hsh : ∀ l, (sh l).Perm l)
    (g : Game) (hInv : Inv g) (i : Nat) (m : GameMove) :
    StepOK g (g.accept_move sh i m).2 (g.accept_move sh i m).1 := by
  have herr : ∀ e : GameError, ∀ msg, Outcome.err e ≠ Outcome.panicked msg :=
    fun e msg h => by cases h
  unfold Game.accept_move
  split
  · exact StepOK_same g hInv _ (herr _)
  · rename_i hpi
    split
    -- ARM 1: (ActionPhase, PlayCard ci)
    · rename_i ci hph
      split
      · exact StepOK_same g hInv _ (herr _)
      · rename_i card hget
        have hcard : g.current_player_read_only.hand[ci]? = some card := get_card_ok _ _ _ hget
        have hobt : card ∈ obtainableCards := current_hand_obtainable g hInv ci card hcard
        have hcilt : ci < g.current_player_read_only.hand.length := by
          obtain ⟨hlt, _⟩ := List.getElem?_eq_some_iff.mp hcard
          exact hlt
        split
        · exact StepOK_same g hInv _ (herr _)
        · -- Action card
          rename_i htype
          split
          · rename_i e hrem
            rw [remove_card_eq _ _ _ hcard] at hrem
            cases hrem
          · rename_i card_to_play p hrem
            rw [remove_card_eq _ _ _ hcard] at hrem
            injection hrem with hrem2
            injection hrem2 with hc1 hc2
            subst hc1
            subst hc2
            obtain ⟨a, hcais, has⟩ := as_action_of_type card htype
            have hsix : a = Action.Moat ∨ a = Action.Village ∨ a = Action.Smithy
                ∨ a = Action.Festival ∨ a = Action.Market ∨ a = Action.Laboratory :=
              obtainable_action_enum a (hcais ▸ hobt)
            rw [has]
            split
            · -- as_action error: impossible since the scrutinee is ok
              rename_i e hase
              cases hase
            · rename_i action hasok
              injection hasok with ha
              subst ha
              dsimp only
              split
              · -- actions = 0 rejection: unreachable under the invariant
                rename_i hcond
                rw [current_modify_current g _ hInv.curr_lt] at hcond
                dsimp only at hcond
                have := hInv.act hph
                omega
              · rename_i hcond
                split
                · -- handle_action ok
                  rename_i g4 hha
                  obtain ⟨-, f, hg4, hfT, hfZ, hfI, hfB⟩ :=
                    handle_action_six_spec sh hsh _ a
                      (by simp only [length_modify_current]; exact hInv.curr_lt)
                      hsix _ _ hha
                  subst hg4
                  rw [modify_modify g _ _ hInv.curr_lt, modify_modify g _ _ hInv.curr_lt,
                    modify_modify g _ _ hInv.curr_lt]
                  dsimp only
                  split
                  · -- hand or actions exhausted: transition to the treasure phase
                    rename_i hcond2
                    split
                    · rename_i g5 htr
                      rw [action_to_treasure_modify g _ hph] at htr
                      injection htr with htr2
                      subst htr2
                      refine StepOK_build sh g hInv _ GamePhase.TreasurePhase g.supply
                        Outcome.ok (fun msg h => by cases h) (le_refl _) hInv.keys
                        ?_ ?_ ?_ ?_ ?_
                      · dsimp only
                        rw [Nat.sub_self, Nat.add_zero, hfT, totalCards_play_card]
                        simp only [totalCards]
                        rw [List.length_eraseIdx_of_lt hcilt]
                        omega
                      · dsimp only
                        apply hfZ
                        apply zonesOK_play_card _ _ _ (hcais ▸ hobt)
                        exact zonesOK_erase _ ci (hInv.zones _ hInv.curr_lt)
                      · dsimp only
                        rw [hfI]
                        exact rfl
                      · refine le_trans ?_ (hfB _)
                        exact hInv.buys_pos _ hInv.curr_lt
                      · intro hfalse
                        cases hfalse
                    · rename_i e htr
                      rw [action_to_treasure_modify g _ hph] at htr
                      cases htr
                  · -- still cards and actions left: stay in the action phase
                    rename_i hcond2
                    dsimp only
                    refine StepOK_build_plain sh g hInv _
                      Outcome.ok (fun msg h => by cases h)
                      ?_ ?_ ?_ ?_ ?_
                    · dsimp only
                      rw [hfT, totalCards_play_card]
                      simp only [totalCards]
                      rw [List.length_eraseIdx_of_lt hcilt]
                      omega
                    · dsimp only
                      apply hfZ
                      apply zonesOK_play_card _ _ _ (hcais ▸ hobt)
                      exact zonesOK_erase _ ci (hInv.zones _ hInv.curr_lt)
                    · dsimp only
                      rw [hfI]
                      exact rfl
                    · refine le_trans ?_ (hfB _)
                      exact hInv.buys_pos _ hInv.curr_lt
                    · intro _
                      rw [current_modify_current g _ hInv.curr_lt] at hcond2
                      simp only [Bool.or_eq_true, decide_eq_true_eq, not_or] at hcond2
                      obtain ⟨hne, -⟩ := hcond2
                      omega
                · -- handle_action err: impossible for the six cards
                  rename_i e g4 hha
                  obtain ⟨hok, -⟩ :=
                    handle_action_six_spec sh hsh _ a
                      (by simp only [length_modify_current]; exact hInv.curr_lt)
                      hsix _ _ hha
                  cases hok
                · -- handle_action panic: impossible for the six cards
                  rename_i msg g4 hha
                  obtain ⟨hok, -⟩ :=
                    handle_action_six_spec sh hsh _ a
                      (by simp only [length_modify_current]; exact hInv.curr_lt)
                      hsix _ _ hha
                  cases hok
        · exact StepOK_same g hInv _ (herr _)
        · exact StepOK_same g hInv _ (herr _)
    -- ARM 2: (ActionPhase, EndActions)
    · rename_i hph
      dsimp only
      split
      · rename_i g5 htr
        rw [action_to_treasure_modify g _ hph] at htr
        injection htr with htr2
        subst htr2
        refine StepOK_build sh g hInv _ GamePhase.TreasurePhase g.supply Outcome.ok
          (fun msg h => by cases h) (le_refl _) hInv.keys ?_ ?_ ?_ ?_ ?_
        · rw [Nat.sub_self, Nat.add_zero]
          exact rfl
        · exact hInv.zones _ hInv.curr_lt
        · exact rfl
        · exact hInv.buys_pos _ hInv.curr_lt
        · intro h
          cases h
      · rename_i e htr
        rw [action_to_treasure_modify g _ hph] at htr
        cases htr
    -- ARM 3: (TreasurePhase, PlayCard ci)
    · rename_i ci hph
      split
      · exact StepOK_same g hInv _ (herr _)
      · rename_i card hget
        have hcard : g.current_player_read_only.hand[ci]? = some card := get_card_ok _ _ _ hget
        have hobt : card ∈ obtainableCards := current_hand_obtainable g hInv ci card hcard
        have hcilt : ci < g.current_player_read_only.hand.length := by
          obtain ⟨hlt, _⟩ := List.getElem?_eq_some_iff.mp hcard
          exact hlt
        split
        · -- Treasure card: play it
          rename_i htype
          split
          · rename_i e hrem
            rw [remove_card_eq _ _ _ hcard] at hrem
            cases hrem
          · rename_i card_to_play p hrem
            rw [remove_card_eq _ _ _ hcard] at hrem
            injection hrem with hrem2
            injection hrem2 with hc1 hc2
            subst hc1
            subst hc2
            obtain ⟨t, hcais, has⟩ := as_treasure_of_type card htype
            rw [has]
            split
            · rename_i e hase
              cases hase
            · rename_i tval hasok
              injection hasok with ht
              subst ht
              dsimp only
              rw [modify_modify g _ _ hInv.curr_lt, modify_modify g _ _ hInv.curr_lt]
              split
              · -- no treasures left: transition to the buy phase
                rename_i hcond2
                split
                · rename_i g5 htr
                  rw [treasure_to_buy_modify g _ hph] at htr
                  injection htr with htr2
                  subst htr2
                  refine StepOK_build sh g hInv _ GamePhase.BuyPhase g.supply
                    Outcome.ok (fun msg h => by cases h) (le_refl _) hInv.keys
                    ?_ ?_ ?_ ?_ ?_
                  · dsimp only
                    rw [Nat.sub_self, Nat.add_zero, totalCards_play_card]
                    simp only [totalCards]
                    rw [List.length_eraseIdx_of_lt hcilt]
                    omega
                  · dsimp only
                    apply zonesOK_play_card _ _ _ hobt
                    exact zonesOK_erase _ ci (hInv.zones _ hInv.curr_lt)
                  · exact rfl
                  · exact hInv.buys_pos _ hInv.curr_lt
                  · intro hfalse
                    cases hfalse
                · rename_i e htr
                  rw [treasure_to_buy_modify g _ hph] at htr
                  cases htr
              · -- still treasures in hand: stay in the treasure phase
                rename_i hcond2
                dsimp only
                refine StepOK_build_plain sh g hInv _
                  Outcome.ok (fun msg h => by cases h) ?_ ?_ ?_ ?_ ?_
                · dsimp only
                  rw [totalCards_play_card]
                  simp only [totalCards]
                  rw [List.length_eraseIdx_of_lt hcilt]
                  omega
                · dsimp only
                  apply zonesOK_play_card _ _ _ hobt
                  exact zonesOK_erase _ ci (hInv.zones _ hInv.curr_lt)
                · exact rfl
                · exact hInv.buys_pos _ hInv.curr_lt
                · intro h
                  rw [hph] at h
                  cases h
        · exact StepOK_same g hInv _ (herr _)
        · exact StepOK_same g hInv _ (herr _)
        · exact StepOK_same g hInv _ (herr _)
    -- ARM 4: (TreasurePhase, EndTreasures)
    · rename_i hph
      split
      · rename_i g5 htr
        rw [treasure_to_buy_eq _ hph] at htr
        injection htr with htr2
        subst htr2
        refine StepOK_phase g hInv GamePhase.BuyPhase ?_
        intro h
        cases h
      · rename_i e htr
        rw [treasure_to_buy_eq _ hph] at htr
        cases htr
    -- ARM 5: (BuyPhase, BuyCard card)
    · rename_i card hph
      dsimp only
      split
      · exact StepOK_same g hInv _ (herr _)
      · rename_i hcoins
        split
        · -- supply refuses: the cost stays deducted, nothing else moves
          rename_i e htake
          dsimp only
          refine StepOK_build_plain sh g hInv _ (Outcome.err e) (herr _) ?_ ?_ ?_ ?_ ?_
          · exact rfl
          · exact hInv.zones _ hInv.curr_lt
          · exact rfl
          · exact hInv.buys_pos _ hInv.curr_lt
          · intro h
            rw [hph] at h
            cases h
        · rename_i s' htake
          obtain ⟨hS1, hK1, hob⟩ := take_card_ok _ card s' hInv.keys htake
          simp only [modify_current_supply_comm, modify_modify, current_supply,
            current_modify_current, hInv.curr_lt]
          split
          · -- last buy: the turn closes automatically
            rename_i hbuy0
            refine StepOK_build_supply_end_turn sh hsh g hInv _ s'
              (by omega) hK1 ?_ ?_ ?_
            · dsimp only
              rw [totalCards_add_discard]
              simp only [totalCards]
              omega
            · dsimp only
              apply zonesOK_add_discard _ _ _ hob
              exact hInv.zones _ hInv.curr_lt
            · exact rfl
          · -- buys remain: stay in the buy phase
            rename_i hbuyne
            refine StepOK_build_supply sh g hInv _ s' Outcome.ok
              (fun msg h => by cases h) (by omega) hK1 ?_ ?_ ?_ ?_ ?_
            · dsimp only
              rw [totalCards_add_discard]
              simp only [totalCards]
              omega
            · dsimp only
              apply zonesOK_add_discard _ _ _ hob
              exact hInv.zones _ hInv.curr_lt
            · exact rfl
            · dsimp only at hbuyne ⊢
              omega
            · intro h
              rw [hph] at h
              cases h
    -- ARM 6: (_, EndTurn)
    · rename_i hmends
      exact StepOK_plain_end_turn sh hsh g hInv
    -- ARM 7: catch-all
    · exact StepOK_same g hInv _ (herr _)

/-- A freshly built player: correct index, baseline counters, a hand of
five, ten cards total, all of them Coppers or Estates. -/
theorem player_new_props (sh : List Card → List Card) (hsh : ∀ l, (sh l).Perm l)
    (idx : Nat) :
    (Player.new sh idx).index = idx
    ∧ totalCards (Player.new sh idx) = 10
    ∧ zonesOK (Player.new sh idx)
    ∧ idleOK (Player.new sh idx)
    ∧ 1 ≤ (Player.new sh idx).buys := by
  unfold Player.new
  set p0 : Player :=
    { index := idx
      hand := []
      deck := List.replicate 7 (Card.treasure .Copper) ++ List.replicate 3 (Card.victory .Estate)
      discard := []
      played := []
      trashed := []
      last_discarded_card := none
      actions := 1
      buys := 1
      coins := 0 } with hp0
  set p1 : Player := p0.shuffle_deck sh with hp1
  have hlen1 : p1.deck.length = 10 := by
    rw [hp1]
    show (sh p0.deck).length = 10
    rw [(hsh p0.deck).length_eq]
    rfl
  have hnot : ¬ p1.deck.length < 5 := by omega
  obtain ⟨hh, hd, hdisc⟩ := draw_length_long sh 5 p1 hnot
  obtain ⟨ha, hb, hc, hi, hpl, ht⟩ := draw_frame sh 5 p1
  have hz1 : zonesOK p1 := by
    intro c hc2
    have hmem : c ∈ sh p0.deck := by
      simp only [allZoneCards, hp1, Player.shuffle_deck, List.mem_append, List.not_mem_nil,
        or_false, false_or] at hc2
      exact hc2
    have : c ∈ p0.deck := (hsh p0.deck).mem_iff.mp hmem
    simp only [hp0, List.mem_append, List.mem_replicate] at this
    rcases this with ⟨-, rfl⟩ | ⟨-, rfl⟩ <;> simp [obtainableCards]
  refine ⟨by rw [hi]; rfl, ?_, zonesOK_draw sh hsh 5 p1 hz1, ?_, by rw [hb]; exact le_refl 1⟩
  · rw [totalCards_draw sh hsh 5 p1]
    show totalCards p1 = 10
    simp only [totalCards, hp1, Player.shuffle_deck]
    show 0 + (sh p0.deck).length + 0 + 0 + 0 = 10
    rw [(hsh p0.deck).length_eq]
    rfl
  · refine ⟨by rw [ha]; rfl, by rw [hb]; rfl, by rw [hc]; rfl, Or.inl ?_⟩
    rw [hh]
    rfl

/-- Reading the `j`-th freshly built player out of the initial lineup. -/
theorem initialise_getD (sh : List Card → List Card) (N j : Nat) (hj : j < N) :
    (Game.initialise_game sh N first).players.getD j default = Player.new sh j := by
  unfold Game.initialise_game
  simp only [List.getD_eq_getElem?_getD, List.getElem?_map, List.getElem?_range hj]
  rfl

/-- The freshly initialised game satisfies the invariant, has `N`
players, and gives each of them ten cards. -/
theorem initialise_props (sh : List Card → List Card) (hsh : ∀ l, (sh l).Perm l)
    (N first : Nat) (hf : first < N) :
    Inv (Game.initialise_game sh N first)
    ∧ (Game.initialise_game sh N first).players.length = N
    ∧ (∀ j, j < N →
        totalCards ((Game.initialise_game sh N first).players.getD j default) = 10) := by
  have hlen : (Game.initialise_game sh N first).players.length = N := by
    unfold Game.initialise_game
    simp
  have hget : ∀ j, j < N →
      (Game.initialise_game sh N first).players.getD j default = Player.new sh j :=
    fun j hj => initialise_getD sh N j hj
  have hcur : (Game.initialise_game sh N first).curr_player_index = first := rfl
  refine ⟨⟨?_, ?_, ?_, ?_, ?_, ?_, ?_⟩, hlen, ?_⟩
  · rw [hlen, hcur]
    exact hf
  · intro j hj
    rw [hlen] at hj
    rw [hget j hj]
    exact (player_new_props sh hsh j).1
  · intro j hj
    rw [hlen] at hj
    rw [hget j hj]
    exact (player_new_props sh hsh j).2.2.1
  · intro j hj
    rw [hlen] at hj
    rw [hget j hj]
    exact (player_new_props sh hsh j).2.2.2.2
  · intro j hj hne
    rw [hlen] at hj
    rw [hget j hj]
    exact (player_new_props sh hsh j).2.2.2.1
  · intro _
    show 1 ≤ ((Game.initialise_game sh N first).players.getD first default).actions
    rw [hget first hf]
    exact le_of_eq ((player_new_props sh hsh first).2.2.2.1).1.symm
  · exact ⟨rfl, rfl, rfl, rfl⟩
  · intro j hj
    rw [hget j hj]
    exact (player_new_props sh hsh j).2.1

/-- Every reachable state satisfies the invariant. -/
theorem reachable_inv (sh : List Card → List Card) (hsh : ∀ l, (sh l).Perm l)
    (N first : Nat) (hf : first < N) (g : Game)
    (hr : Reachable sh N first g) : Inv g := by
  induction hr with
  | base => exact (initialise_props sh hsh N first hf).1
  | step g0 g1 i m hr0 hstep ih =>
    rw [← hstep]
    exact (accept_move_step sh hsh g0 ih i m).1

/-- The supply cards a submitted move sequence hands to each player:
at each step, the cards that leave the supply are credited to the
player whose turn it is when the move is submitted. -/
def gainsAlong (sh : List Card → List Card) : Game → List (Nat × GameMove) → Nat → Nat
  | _, [], _ => 0
  | g, (i, m) :: rest, j =>
    (if j = g.curr_player_index
      then supplyTotal g.supply - supplyTotal ((g.accept_move sh i m).2).supply else 0)
      + gainsAlong sh ((g.accept_move sh i m).2) rest j

/-- Card conservation along any move sequence from an invariant state. -/
theorem run_conservation (sh : List Card → List Card) (hsh : ∀ l, (sh l).Perm l)
    (ms : List (Nat × GameMove)) :
    ∀ (g : Game), Inv g → ∀ j, j < g.players.length →
    totalCards ((runMoves sh g ms).players.getD j default)
      = totalCards (g.players.getD j default) + gainsAlong sh g ms j := by
  induction ms with
  | nil =>
    intro g _ j _
    rw [runMoves, gainsAlong]
    rfl
  | cons im rest ih =>
    intro g hInv j hj
    obtain ⟨i, m⟩ := im
    obtain ⟨hInv2, hnp, hlen, hsup, htot⟩ := accept_move_step sh hsh g hInv i m
    rw [runMoves, gainsAlong]
    rw [ih _ hInv2 j (by rw [hlen]; exact hj)]
    rw [htot j hj]
    omega

/-- C2: card conservation. Starting from a fresh game, after any
sequence of submitted moves (accepted or rejected, with their draws,
reshuffles, plays, buys and effects), every player's five zones
together hold exactly the 10 starting cards plus the cards the supply
handed to that player along the way: no card is lost or duplicated. -/
theorem card_conservation (sh : List Card → List Card) (hsh : ∀ l, (sh l).Perm l)
    (N first : Nat) (hf : first < N) (ms : List (Nat × GameMove)) (j : Nat) (hj : j < N) :
    totalCards ((runMoves sh (Game.initialise_game sh N first) ms).players.getD j default)
      = 10 + gainsAlong sh (Game.initialise_game sh N first) ms j := by
  obtain ⟨hInv, hlen, htot⟩ := initialise_props sh hsh N first hf
  rw [run_conservation sh hsh ms _ hInv j (by rw [hlen]; exact hj), htot j hj]

/-- Witness for C2 at a concrete two-player game and one-move trace. -/
theorem card_conservation_witness :
    (∀ l : List Card, (id l).Perm l) ∧ (0 : Nat) < 2
    ∧ totalCards ((runMoves id (Game.initialise_game id 2 0)
          [(0, GameMove.EndTurn)]).players.getD 0 default)
        = 10 + gainsAlong id (Game.initialise_game id 2 0) [(0, GameMove.EndTurn)] 0 :=
  ⟨fun l => List.Perm.refl l, by decide,
    card_conservation id (fun l => List.Perm.refl l) 2 0 (by decide)
      [(0, GameMove.EndTurn)] 0 (by decide)⟩

/-- C10: in every state reachable from `initialise_game` by submitted
moves, the current player holds at least one buy — in particular in the
buy phase, so the unguarded `buys -= 1` in the `BuyCard` branch never
underflows. -/
theorem buy_phase_buys_positive (sh : List Card → List Card)
    (hsh : ∀ l, (sh l).Perm l) (N first : Nat) (hf : first < N) (g : Game)
    (hr : Reachable sh N first g) (hph : g.game_phase = GamePhase.BuyPhase) :
    1 ≤ g.current_player_read_only.buys := by
  have hInv := reachable_inv sh hsh N first hf g hr
  exact hInv.buys_pos _ hInv.curr_lt

/-- The concrete reachable buy-phase state used by the C10 witness. -/
def witnessBuyGame : Game :=
  ((Game.initialise_game id 2 0).accept_move id 0 GameMove.EndTreasures).2

/-- Witness for C10 at a concrete reachable buy-phase state. -/
theorem buy_phase_buys_positive_witness :
    (∀ l : List Card, (id l).Perm l) ∧ (0 : Nat) < 2
    ∧ Reachable id 2 0 witnessBuyGame
    ∧ witnessBuyGame.game_phase = GamePhase.BuyPhase
    ∧ 1 ≤ witnessBuyGame.current_player_read_only.buys :=
  ⟨fun l => List.Perm.refl l, by decide,
    Reachable.step _ _ 0 GameMove.EndTreasures Reachable.base rfl,
    by decide,
    buy_phase_buys_positive id (fun l => List.Perm.refl l) 2 0 (by decide) _
      (Reachable.step _ _ 0 GameMove.EndTreasures Reachable.base rfl) (by decide)⟩

/-- C7: `take_from_supply_pile` decrements a present positive pile by
exactly one (all other piles untouched), reports `CardSupplyDepleted`
on a present zero pile, and `CardNotFoundInSupply` on an unconfigured
name.  Counts live in `Nat` and are only ever decremented under a
positivity check, so no pile count can become negative. -/
theorem take_card_supply_spec (pile : List (String × Nat)) (name : String) :
    (∀ c, pile.lookup name = some (c + 1) →
      take_from_supply_pile pile name = .ok (decrement_pile_entry pile name)
        ∧ (decrement_pile_entry pile name).lookup name = some c
        ∧ (∀ other, other ≠ name →
            (decrement_pile_entry pile name).lookup other = pile.lookup other))
    ∧ (pile.lookup name = some 0 →
        take_from_supply_pile pile name = .error (.CardSupplyDepleted name))
    ∧ (pile.lookup name = none →
        take_from_supply_pile pile name = .error (.CardNotFoundInSupply name)) := by
  refine ⟨?_, take_pile_zero pile name, take_pile_none pile name⟩
  intro c hc
  refine ⟨(take_pile_ok_iff pile name _).mpr ⟨⟨c, hc⟩, rfl⟩, ?_, ?_⟩
  · have h := decrement_lookup_self pile name (c + 1) hc
    simpa using h
  · intro other hother
    exact decrement_lookup_ne pile name other hother

/-- Witness for C7 on a concrete two-pile supply. -/
theorem take_card_supply_witness :
    ([("Silver", 40), ("Gold", 0)] : List (String × Nat)).lookup "Silver" = some (39 + 1)
    ∧ take_from_supply_pile [("Silver", 40), ("Gold", 0)] "Silver"
        = .ok (decrement_pile_entry [("Silver", 40), ("Gold", 0)] "Silver")
    ∧ ([("Silver", 40), ("Gold", 0)] : List (String × Nat)).lookup "Gold" = some 0
    ∧ take_from_supply_pile [("Silver", 40), ("Gold", 0)] "Gold"
        = .error (.CardSupplyDepleted "Gold")
    ∧ ([("Silver", 40), ("Gold", 0)] : List (String × Nat)).lookup "Curse" = none
    ∧ take_from_supply_pile [("Silver", 40), ("Gold", 0)] "Curse"
        = .error (.CardNotFoundInSupply "Curse") := by
  refine ⟨by decide, ?_, by decide, ?_, by decide, ?_⟩
  · exact ((take_card_supply_spec [("Silver", 40), ("Gold", 0)] "Silver").1 39 (by decide)).1
  · exact (take_card_supply_spec [("Silver", 40), ("Gold", 0)] "Gold").2.1 (by decide)
  · exact (take_card_supply_spec [("Silver", 40), ("Gold", 0)] "Curse").2.2 (by decide)

/-- The fixed victory-point value of a card (Estate 1, Duchy 3,
Province 6, everything else 0), written from the spec's scoring words. -/
def victoryPointValue : Card → Nat
  | Card.victory Victory.Estate => 1
  | Card.victory Victory.Duchy => 3
  | Card.victory Victory.Province => 6
  | _ => 0

/-- The victory-point total exactly as the spec words it: summed across
deck, hand, discard AND played. -/
def spec_victory_points_all_zones (p : Player) : Nat :=
  ((p.deck ++ p.hand ++ p.discard ++ p.played).map victoryPointValue).sum

/-- The victory-point total over deck, hand and discard only. -/
def spec_victory_points_three_zones (p : Player) : Nat :=
  ((p.deck ++ p.hand ++ p.discard).map victoryPointValue).sum

/-- A player whose only card is a Province sitting in the played pile. -/
def playedOnlyPlayer : Player :=
  { index := 0, hand := [], deck := [], discard := [],
    played := [Card.victory Victory.Province], trashed := [],
    last_discarded_card := none, actions := 1, buys := 1, coins := 0 }

/-- C3 counterexample: `get_victory_points` does not count the played
pile: a Province in `played` is worth 0 to it, while the spec's
all-zones sum gives 6. -/
theorem victory_points_skips_played :
    playedOnlyPlayer.get_victory_points = 0
    ∧ spec_victory_points_all_zones playedOnlyPlayer = 6
    ∧ playedOnlyPlayer.get_victory_points ≠ spec_victory_points_all_zones playedOnlyPlayer := by
  decide

/-- One fold step of `get_victory_points` adds exactly the card's fixed
victory-point value. -/
theorem vp_fold_step (c : Card) (s : Nat) :
    (if c.name = "Estate" then s + 1
      else if c.name = "Duchy" then s + 3
      else if c.name = "Province" then s + 6
      else s) = s + victoryPointValue c := by
  cases c with
  | treasure t => cases t <;> simp [Card.name, Treasure.name, victoryPointValue]
  | action a => cases a <;> simp [Card.name, Action.name, victoryPointValue]
  | victory v => cases v <;> simp [Card.name, Victory.name, victoryPointValue]
  | curse cc => cases cc <;> simp [Card.name, CurseCard.name, victoryPointValue]

/-- The name-matching fold of `get_victory_points` computes the sum of
the fixed victory-point values. -/
theorem vp_foldl (l : List Card) : ∀ s : Nat,
    l.foldl (fun sum card =>
      if card.name = "Estate" then sum + 1
      else if card.name = "Duchy" then sum + 3
      else if card.name = "Province" then sum + 6
      else sum) s = s + (l.map victoryPointValue).sum := by
  induction l with
  | nil =>
    intro s
    simp
  | cons c rest ih =>
    intro s
    rw [List.foldl_cons, ih, List.map_cons, List.sum_cons, vp_fold_step]
    omega

/-- C3 amended: `get_victory_points` sums the fixed values Estate 1,
Duchy 3, Province 6 over exactly three zones — hand, deck and discard —
and ignores the played (and trashed) pile. -/
theorem victory_points_three_zones (p : Player) :
    p.get_victory_points = spec_victory_points_three_zones p := by
  unfold Player.get_victory_points spec_victory_points_three_zones
  rw [vp_foldl]
  simp only [List.map_append, List.sum_append]
  omega

/-- C4: reshuffle-on-demand in `Player::draw`.  When the deck is short
the shuffled discard is merged once beneath the remaining deck (so the
old deck cards sit on top and are drawn first), the discard is empty
afterwards; if deck+discard can cover the request exactly `n` cards are
drawn, otherwise every available card is drawn with no error. -/
theorem draw_reshuffle (sh : List Card → List Card) (hsh : ∀ l, (sh l).Perm l)
    (n : Nat) (p : Player) (hshort : p.deck.length < n) :
    p.draw sh n =
      { p with
          deck := (sh p.discard ++ p.deck).take ((sh p.discard ++ p.deck).length - n),
          hand := p.hand ++ (sh p.discard ++ p.deck).reverse.take n,
          discard := [] }
    ∧ (sh p.discard ++ p.deck).reverse.take n
        = p.deck.reverse ++ (sh p.discard).reverse.take (n - p.deck.length)
    ∧ (p.draw sh n).discard = []
    ∧ (n ≤ p.discard.length + p.deck.length →
        (p.draw sh n).hand.length = p.hand.length + n)
    ∧ (p.discard.length + p.deck.length < n →
        (p.draw sh n).hand.length = p.hand.length + (p.discard.length + p.deck.length)
          ∧ (p.draw sh n).deck = []) := by
  obtain ⟨hh, hd, hdisc⟩ := draw_length_short sh hsh n p hshort
  refine ⟨draw_spec_short sh n p hshort, ?_, hdisc, ?_, ?_⟩
  · rw [List.reverse_append, List.take_append_eq_append_take,
      List.take_of_length_le (by simp; omega)]
    congr 2
    simp
  · intro hle
    rw [hh, Nat.min_eq_left hle]
  · intro hgt
    refine ⟨?_, ?_⟩
    · rw [hh, Nat.min_eq_right (Nat.le_of_lt hgt)]
    · rw [← List.length_eq_zero, hd]
      omega

/-- The concrete short-deck player used by the C4 witness. -/
def reshufflePlayer : Player :=
  { index := 0, hand := [Card.treasure Treasure.Gold], deck := [Card.treasure Treasure.Copper],
    discard := [Card.treasure Treasure.Silver, Card.victory Victory.Estate],
    played := [], trashed := [], last_discarded_card := none,
    actions := 1, buys := 1, coins := 0 }

/-- Witness for C4 at a concrete player with a one-card deck. -/
theorem draw_reshuffle_witness :
    reshufflePlayer.deck.length < 3
    ∧ (reshufflePlayer.draw id 3).discard = []
    ∧ (3 ≤ reshufflePlayer.discard.length + reshufflePlayer.deck.length
        → (reshufflePlayer.draw id 3).hand.length = reshufflePlayer.hand.length + 3) :=
  ⟨by decide,
    (draw_reshuffle id (fun l => List.Perm.refl l) 3 reshufflePlayer (by decide)).2.2.1,
    (draw_reshuffle id (fun l => List.Perm.refl l) 3 reshufflePlayer (by decide)).2.2.2.1⟩

/-- The seventeen action cards whose `handle_action` arm is a
`todo!()` in the source. -/
def todoActions : List Action :=
  [Action.Cellar, Action.Chapel, Action.Harbinger, Action.Merchant, Action.Vassal,
   Action.Workshop, Action.Bureaucrat, Action.Militia, Action.Moneylender,
   Action.Poacher, Action.Remodel, Action.ThroneRoom, Action.Bandit,
   Action.Library, Action.Mine, Action.Sentry, Action.Artisan]

/-- `handle_action` on any `todo!()` card panics with the runtime
"not yet implemented" message and returns no error value. -/
theorem handle_action_todo (sh : List Card → List Card) (a : Action)
    (ha : a ∈ todoActions) (g : Game) :
    g.handle_action sh a = (.panicked "not yet implemented", g) := by
  fin_cases ha <;> rfl

/-- A player holding only an (unimplemented) Cellar. -/
def unimplementedPlayer : Player :=
  { index := 0, hand := [Card.action Action.Cellar],
    deck := [], discard := [], played := [], trashed := [],
    last_discarded_card := none, actions := 1, buys := 1, coins := 0 }

/-- A one-player game in the action phase whose current player holds
only an (unimplemented) Cellar. -/
def unimplementedGame : Game :=
  { players := [unimplementedPlayer],
    supply := initialSupply,
    curr_player_index := 0,
    game_phase := GamePhase.ActionPhase,
    winner := none }

/-- C9 counterexample: playing an unimplemented card (Cellar) does not
return an error to the caller — the `todo!()` arm panics, aborting the
program, so no `Err` value of any kind is produced. -/
theorem unimplemented_play_panics :
    (unimplementedGame.accept_move id 0 (GameMove.PlayCard 0)).1
      = .panicked "not yet implemented"
    ∧ ∀ e, (unimplementedGame.accept_move id 0 (GameMove.PlayCard 0)).1 ≠ .err e := by
  refine ⟨rfl, ?_⟩
  intro e h
  rw [show (unimplementedGame.accept_move id 0 (GameMove.PlayCard 0)).1
      = .panicked "not yet implemented" from rfl] at h
  exact Outcome.noConfusion h

/-- Reading back the actions counter after the hand-erasing
current-player overwrite in the PlayCard branch. -/
theorem actions_modify_erase (g : Game) (ci : Nat)
    (hlt : g.curr_player_index < g.players.length) :
    (g.modify_current (fun _ =>
      { index := g.current_player_read_only.index,
        hand := g.current_player_read_only.hand.eraseIdx ci,
        deck := g.current_player_read_only.deck,
        discard := g.current_player_read_only.discard,
        played := g.current_player_read_only.played,
        trashed := g.current_player_read_only.trashed,
        last_discarded_card := g.current_player_read_only.last_discarded_card,
        actions := g.current_player_read_only.actions,
        buys := g.current_player_read_only.buys,
        coins := g.current_player_read_only.coins })).current_player_read_only.actions
      = g.current_player_read_only.actions := by
  rw [current_modify_current g _ hlt]

/-- C9 amended: submitting PlayCard on an action card in hand with
actions left either panics with the runtime "not yet implemented"
message (for every `todo!()` card) or, only for Gardens, returns an
`InvalidMove` error; no unimplemented effect is a silent no-op, but the
failure is a panic, not an error return. -/
theorem unimplemented_actions_panic (sh : List Card → List Card) (g : Game)
    (ci : Nat) (a : Action)
    (hlt : g.curr_player_index < g.players.length)
    (hph : g.game_phase = GamePhase.ActionPhase)
    (hget : g.current_player_read_only.get_card_from_hand ci = .ok (Card.action a))
    (hact : g.current_player_read_only.actions ≠ 0) :
    (a ∈ todoActions →
      (g.accept_move sh g.curr_player_index (GameMove.PlayCard ci)).1
        = .panicked "not yet implemented")
    ∧ (a = Action.Gardens →
      (g.accept_move sh g.curr_player_index (GameMove.PlayCard ci)).1
        = .err (.InvalidMove "Cannot play Gardens as action")) := by
  have hrem := remove_card_eq _ ci _ (get_card_ok _ ci _ hget)
  unfold Game.accept_move
  rw [if_neg (fun h => h rfl), hph]
  simp only [hget, hrem, Card.card_type, Card.as_action]
  rw [actions_modify_erase g ci hlt, if_neg hact]
  constructor
  · intro hmem
    rw [handle_action_todo sh a hmem]
  · intro hgar
    subst hgar
    rfl

/-- Witness for C9's amended theorem at a concrete playable Cellar. -/
theorem unimplemented_actions_panic_witness :
    unimplementedGame.curr_player_index < unimplementedGame.players.length
    ∧ unimplementedGame.game_phase = GamePhase.ActionPhase
    ∧ unimplementedGame.current_player_read_only.get_card_from_hand 0
        = .ok (Card.action Action.Cellar)
    ∧ unimplementedGame.current_player_read_only.actions ≠ 0
    ∧ Action.Cellar ∈ todoActions
    ∧ (unimplementedGame.accept_move id unimplementedGame.curr_player_index
        (GameMove.PlayCard 0)).1 = .panicked "not yet implemented" :=
  ⟨by decide, rfl, rfl, by decide, by decide,
    (unimplemented_actions_panic id unimplementedGame 0 Action.Cellar
      (by decide) rfl rfl (by decide)).1 (by decide)⟩

/-- `Player::end_turn` keeps the player's seat index. -/
theorem end_turn_index (sh : List Card → List Card) (p : Player) :
    (p.end_turn sh).index = p.index := by
  rw [end_turn_eq_draw]
  exact (draw_frame sh 5 _).2.2.2.1

/-- The `max_by_key` fold returns the start value or a list element,
never smaller than the start value or any element (later elements win
ties). -/
theorem foldl_max_vp (rest : List Player) : ∀ p : Player,
    ((rest.foldl (fun best q =>
        if best.get_victory_points ≤ q.get_victory_points then q else best) p) = p
      ∨ (rest.foldl (fun best q =>
        if best.get_victory_points ≤ q.get_victory_points then q else best) p) ∈ rest)
    ∧ p.get_victory_points
        ≤ (rest.foldl (fun best q =>
            if best.get_victory_points ≤ q.get_victory_points then q else best)
            p).get_victory_points
    ∧ ∀ q ∈ rest, q.get_victory_points
        ≤ (rest.foldl (fun best q =>
            if best.get_victory_points ≤ q.get_victory_points then q else best)
            p).get_victory_points := by
  induction rest with
  | nil =>
    intro p
    exact ⟨Or.inl rfl, Nat.le_refl _, fun q hq => absurd hq (List.not_mem_nil q)⟩
  | cons r rest ih =>
    intro p
    rw [List.foldl_cons]
    by_cases h : p.get_victory_points ≤ r.get_victory_points
    · rw [if_pos h]
      obtain ⟨hmem, hle, hall⟩ := ih r
      refine ⟨?_, Nat.le_trans h hle, ?_⟩
      · rcases hmem with h1 | h1
        · exact Or.inr (by rw [h1]; exact List.mem_cons_self r rest)
        · exact Or.inr (List.mem_cons_of_mem r h1)
      · intro q hq
        rcases List.mem_cons.mp hq with h1 | h1
        · rw [h1]
          exact hle
        · exact hall q h1
    · rw [if_neg h]
      obtain ⟨hmem, hle, hall⟩ := ih p
      refine ⟨?_, hle, ?_⟩
      · rcases hmem with h1 | h1
        · exact Or.inl h1
        · exact Or.inr (List.mem_cons_of_mem r h1)
      · intro q hq
        rcases List.mem_cons.mp hq with h1 | h1
        · rw [h1]
          exact Nat.le_trans (Nat.le_of_lt (Nat.lt_of_not_le h)) hle
        · exact hall q h1

/-- Rust's `max_by_key` on a nonempty list returns an element maximal
for the key (the last one on ties). -/
theorem max_by_key_vp_spec (ps : List Player) (hne : ps ≠ []) :
    ∃ w, max_by_key_vp ps = some w ∧ w ∈ ps
      ∧ ∀ q ∈ ps, q.get_victory_points ≤ w.get_victory_points := by
  cases ps with
  | nil => exact absurd rfl hne
  | cons p rest =>
    obtain ⟨hmem, hle, hall⟩ := foldl_max_vp rest p
    refine ⟨_, rfl, ?_, ?_⟩
    · rcases hmem with h1 | h1
      · rw [h1]
        exact List.mem_cons_self p rest
      · exact List.mem_cons_of_mem p h1
    · intro q hq
      rcases List.mem_cons.mp hq with h1 | h1
      · rw [h1]
        exact hle
      · exact hall q h1

/-- A list member sits at some in-range position. -/
theorem mem_getD (l : List Player) (w : Player) (h : w ∈ l) :
    ∃ j, j < l.length ∧ l.getD j default = w := by
  obtain ⟨j, hj, hget⟩ := List.getElem_of_mem h
  exact ⟨j, hj, by
    rw [List.getD_eq_getElem?_getD, List.getElem?_eq_getElem hj, Option.getD_some]
    exact hget⟩

/-- The winner bookkeeping of `Game::end_turn`: players are the reset
list, the winner is untouched while the game is not over, and set to the
seat index of the `max_by_key` result once it is. -/
theorem end_turn_winner_fields (sh : List Card → List Card) (g : Game) :
    (g.end_turn sh).players = (g.modify_current (Player.end_turn sh)).players
    ∧ (g.supply.check_game_over = false → (g.end_turn sh).winner = g.winner)
    ∧ (g.supply.check_game_over = true →
        ∀ w, max_by_key_vp (g.modify_current (Player.end_turn sh)).players = some w →
          (g.end_turn sh).winner = some w.index) := by
  unfold Game.end_turn
  simp only [Game.modify_current, List.length_set]
  split
  next hgo =>
    split
    next w heq =>
      refine ⟨rfl, ?_, ?_⟩
      · intro hfalse
        exact absurd hgo (by rw [hfalse]; exact Bool.false_ne_true)
      · intro _ w2 hw2
        rw [heq] at hw2
        cases hw2
        rfl
    next heq =>
      refine ⟨rfl, ?_, ?_⟩
      · intro hfalse
        exact absurd hgo (by rw [hfalse]; exact Bool.false_ne_true)
      · intro _ w2 hw2
        rw [heq] at hw2
        cases hw2
  next hgo =>
    refine ⟨rfl, fun _ => rfl, ?_⟩
    intro htrue
    exact absurd htrue hgo

/-- C6: `check_game_over` holds exactly when the Province pile is at
zero or at least three piles are empty; `end_turn` then records as
winner the seat index of a player with maximal victory points among the
reset players (the last such on ties); while the game is not over the
winner stays unset. -/
theorem game_over_winner (sh : List Card → List Card) (g : Game)
    (hne : g.players ≠ [])
    (hcur : g.curr_player_index < g.players.length)
    (hidx : ∀ j, j < g.players.length → (g.players.getD j default).index = j) :
    (g.supply.check_game_over = true ↔
      (g.supply.victories.lookup "Province").getD 0 = 0
        ∨ 3 ≤ g.supply.num_empty_supply_piles)
    ∧ (g.supply.check_game_over = true →
        ∃ k, (g.end_turn sh).winner = some k
          ∧ k < (g.end_turn sh).players.length
          ∧ ∀ q ∈ (g.end_turn sh).players,
              q.get_victory_points
                ≤ ((g.end_turn sh).players.getD k default).get_victory_points)
    ∧ (g.supply.check_game_over = false → (g.end_turn sh).winner = g.winner) := by
  obtain ⟨hp, hwf, hwt⟩ := end_turn_winner_fields sh g
  refine ⟨?_, ?_, hwf⟩
  · simp [Supply.check_game_over, Bool.or_eq_true, beq_iff_eq, decide_eq_true_eq]
  · intro hgo
    have hlen' : (g.end_turn sh).players.length = g.players.length := by
      rw [hp, length_modify_current]
    have hne' : (g.end_turn sh).players ≠ [] := by
      have hpos : 0 < g.players.length := List.length_pos.mpr hne
      intro h0
      rw [h0] at hlen'
      simp only [List.length_nil] at hlen'
      omega
    obtain ⟨w, hw, wmem, wmax⟩ := max_by_key_vp_spec _ hne'
    obtain ⟨j, hj, hgetj⟩ := mem_getD _ w wmem
    have hidx' : w.index = j := by
      rw [← hgetj, hp]
      rw [hp, length_modify_current] at hj
      by_cases hjc : j = g.curr_player_index
      · subst hjc
        have h2 : (g.modify_current (Player.end_turn sh)).players.getD
            g.curr_player_index default = g.current_player_read_only.end_turn sh :=
          current_modify_current g _ hcur
        rw [h2, end_turn_index]
        exact hidx _ hcur
      · rw [getD_modify_current_ne g _ j hjc]
        exact hidx _ hj
    have hw2 : max_by_key_vp (g.modify_current (Player.end_turn sh)).players = some w := by
      rw [← hp]
      exact hw
    refine ⟨w.index, hwt hgo w hw2, ?_, ?_⟩
    · rw [hidx']
      exact hj
    · intro q hq
      rw [hidx', hgetj]
      exact wmax q hq

/-- A player holding a single Duchy. -/
def duchyPlayer : Player :=
  { index := 0, hand := [Card.victory Victory.Duchy],
    deck := [], discard := [], played := [], trashed := [],
    last_discarded_card := none, actions := 1, buys := 1, coins := 0 }

/-- A finished one-player game: the Province pile is at zero. -/
def provinceOutGame : Game :=
  { players := [duchyPlayer],
    supply := { treasures := [("Copper", 60)], actions := [("Moat", 10)],
                victories := [("Province", 0), ("Duchy", 10)], curses := [("Curse", 10)] },
    curr_player_index := 0,
    game_phase := GamePhase.BuyPhase,
    winner := none }

/-- Witness for C6 at a concrete game whose Province pile just ran out. -/
theorem game_over_winner_witness :
    provinceOutGame.players ≠ []
    ∧ provinceOutGame.curr_player_index < provinceOutGame.players.length
    ∧ (∀ j, j < provinceOutGame.players.length →
        (provinceOutGame.players.getD j default).index = j)
    ∧ provinceOutGame.supply.check_game_over = true
    ∧ ∃ k, (provinceOutGame.end_turn id).winner = some k
        ∧ k < (provinceOutGame.end_turn id).players.length
        ∧ ∀ q ∈ (provinceOutGame.end_turn id).players,
            q.get_victory_points
              ≤ ((provinceOutGame.end_turn id).players.getD k default).get_victory_points := by
  refine ⟨by simp [provinceOutGame], by decide, by decide, by decide, ?_⟩
  exact (game_over_winner id provinceOutGame (by simp [provinceOutGame]) (by decide)
    (by decide)).2.1 (by decide)

/-- Length is preserved by single-player mutation. -/
theorem length_modify_player (g : Game) (i : Nat) (f : Player → Player) :
    (g.modify_player i f).players.length = g.players.length :=
  List.length_set _ _ _

/-- Reading back the mutated player. -/
theorem getD_modify_player_self (g : Game) (i : Nat) (f : Player → Player)
    (h : i < g.players.length) :
    (g.modify_player i f).players.getD i default = f (g.players.getD i default) := by
  simp [Game.modify_player, List.getD_eq_getElem?_getD, List.getElem?_set_self h]

/-- Other seats are untouched by single-player mutation. -/
theorem getD_modify_player_ne (g : Game) (i : Nat) (f : Player → Player) (j : Nat)
    (h : j ≠ i) :
    (g.modify_player i f).players.getD j default = g.players.getD j default := by
  simp [Game.modify_player, List.getD_eq_getElem?_getD,
    List.getElem?_set_ne (fun h2 => h h2.symm)]

/-- Adding the same offset keeps circular positions distinct while both
offsets stay below the modulus. -/
theorem add_mod_cancel_distinct (n s j1 j2 : Nat) (h1 : j1 < n) (h2 : j2 < n)
    (hne : j1 ≠ j2) : (s + j1) % n ≠ (s + j2) % n := by
  intro h
  have h3 : j1 % n = j2 % n := Nat.ModEq.add_left_cancel' s h
  rw [Nat.mod_eq_of_lt h1, Nat.mod_eq_of_lt h2] at h3
  exact hne h3

/-- Stepping the circular visit pointer once and then `j` more times
lands where stepping `j + 1` times from the start does. -/
theorem mod_shift (n idx j : Nat) : ((idx + 1) % n + j) % n = (idx + (j + 1)) % n := by
  rw [Nat.mod_add_mod]
  congr 1
  omega

/-- Unfolding one iteration of the curse loop while the pile is empty. -/
theorem witchLoop_succ_zero (k idx : Nat) (g : Game)
    (hc : g.supply.curses.lookup "Curse" = some 0) :
    witchLoop (k + 1) idx g = witchLoop k ((idx + 1) % g.players.length) g := by
  rw [witchLoop, hc]
  simp only [Option.getD_some]
  rw [if_neg (Nat.lt_irrefl 0)]

/-- Unfolding one iteration of the curse loop while the pile is
positive: the visited seat gains a Curse and the pile drops by one. -/
theorem witchLoop_succ_pos (k idx : Nat) (g : Game) (c' : Nat)
    (hc : g.supply.curses.lookup "Curse" = some (c' + 1)) :
    witchLoop (k + 1) idx g
      = witchLoop k
          ((idx + 1) %
            (g.modify_player idx
              (Player.add_to_discard (Card.curse CurseCard.Curse))).players.length)
          { players := (g.modify_player idx
              (Player.add_to_discard (Card.curse CurseCard.Curse))).players,
            supply :=
              { treasures := g.supply.treasures, actions := g.supply.actions,
                victories := g.supply.victories,
                curses := decrement_pile_entry g.supply.curses "Curse" },
            curr_player_index := g.curr_player_index,
            game_phase := g.game_phase,
            winner := g.winner } := by
  rw [witchLoop, hc]
  simp only [Option.getD_some]
  rw [if_pos (Nat.succ_pos c')]
  rfl

/-- Full characterisation of the curse-distribution loop: `k` visits
starting at seat `idx` decrement the Curse pile once per visit while it
lasts (all other supply piles and game fields untouched), give exactly
the first `c` visited seats one Curse in the discard, and leave every
unvisited seat unchanged. -/
theorem witchLoop_spec (k : Nat) : ∀ (idx : Nat) (g : Game) (c : Nat),
    g.supply.curses.lookup "Curse" = some c →
    idx < g.players.length →
    (witchLoop k idx g).players.length = g.players.length
    ∧ (witchLoop k idx g).supply.treasures = g.supply.treasures
    ∧ (witchLoop k idx g).supply.actions = g.supply.actions
    ∧ (witchLoop k idx g).supply.victories = g.supply.victories
    ∧ (witchLoop k idx g).supply.curses.lookup "Curse" = some (c - min c k)
    ∧ (∀ other, other ≠ "Curse" →
        (witchLoop k idx g).supply.curses.lookup other = g.supply.curses.lookup other)
    ∧ (witchLoop k idx g).curr_player_index = g.curr_player_index
    ∧ (witchLoop k idx g).game_phase = g.game_phase
    ∧ (witchLoop k idx g).winner = g.winner
    ∧ (∀ t, (∀ j, j < k → (idx + j) % g.players.length ≠ t) →
        (witchLoop k idx g).players.getD t default = g.players.getD t default)
    ∧ (∀ j, j < k →
        (∀ j2, j2 < k → j2 ≠ j →
          (idx + j2) % g.players.length ≠ (idx + j) % g.players.length) →
        (witchLoop k idx g).players.getD ((idx + j) % g.players.length) default
          = if j < c
            then (g.players.getD ((idx + j) % g.players.length) default).add_to_discard
                  (Card.curse CurseCard.Curse)
            else g.players.getD ((idx + j) % g.players.length) default) := by
  induction k with
  | zero =>
    intro idx g c hc hidx
    refine ⟨rfl, rfl, rfl, rfl, ?_, fun other _ => rfl, rfl, rfl, rfl,
      fun t _ => rfl, fun j hj _ => absurd hj (Nat.not_lt_zero j)⟩
    show g.supply.curses.lookup "Curse" = some (c - min c 0)
    rw [hc]
    congr 1
    omega
  | succ k ih =>
    intro idx g c hc hidx
    have hpos : 0 < g.players.length := Nat.lt_of_le_of_lt (Nat.zero_le _) hidx
    have h0 : (idx + 0) % g.players.length = idx := by
      rw [Nat.add_zero, Nat.mod_eq_of_lt hidx]
    cases c with
    | zero =>
      rw [witchLoop_succ_zero k idx g hc]
      obtain ⟨i1, i2, i3, i4, i5, i6, i7, i8, i9, i10, i11⟩ :=
        ih ((idx + 1) % g.players.length) g 0 hc (Nat.mod_lt _ hpos)
      refine ⟨i1, i2, i3, i4, ?_, i6, i7, i8, i9, ?_, ?_⟩
      · rw [i5]
        congr 1
        omega
      · intro t ht
        refine i10 t ?_
        intro j hj
        rw [mod_shift]
        exact ht (j + 1) (Nat.succ_lt_succ hj)
      · intro j hj hdist
        rw [if_neg (Nat.not_lt_zero j)]
        cases j with
        | zero =>
          rw [h0]
          refine i10 idx ?_
          intro j2 hj2
          rw [mod_shift]
          have h2 := hdist (j2 + 1) (Nat.succ_lt_succ hj2) (Nat.succ_ne_zero j2)
          rw [h0] at h2
          exact h2
        | succ j' =>
          have hdist' : ∀ j2, j2 < k → j2 ≠ j' →
              ((idx + 1) % g.players.length + j2) % g.players.length
                ≠ ((idx + 1) % g.players.length + j') % g.players.length := by
            intro j2 hj2 hne2
            rw [mod_shift, mod_shift]
            exact hdist (j2 + 1) (Nat.succ_lt_succ hj2)
              (fun h => hne2 (Nat.succ_injective h))
          have hstep := i11 j' (Nat.lt_of_succ_lt_succ hj) hdist'
          rw [mod_shift] at hstep
          rw [hstep, if_neg (Nat.not_lt_zero j')]
    | succ c' =>
      rw [witchLoop_succ_pos k idx g c' hc, length_modify_player]
      set G1 : Game :=
        { players := (g.modify_player idx
            (Player.add_to_discard (Card.curse CurseCard.Curse))).players,
          supply :=
            { treasures := g.supply.treasures, actions := g.supply.actions,
              victories := g.supply.victories,
              curses := decrement_pile_entry g.supply.curses "Curse" },
          curr_player_index := g.curr_player_index,
          game_phase := g.game_phase,
          winner := g.winner } with hG1
      have hlenG : G1.players.length = g.players.length := by
        rw [hG1]
        exact length_modify_player g idx _
      have hcurseG : G1.supply.curses.lookup "Curse" = some c' := by
        rw [hG1]
        have h2 := decrement_lookup_self g.supply.curses "Curse" (c' + 1) hc
        simpa using h2
      have hselfG : G1.players.getD idx default
          = (g.players.getD idx default).add_to_discard (Card.curse CurseCard.Curse) := by
        rw [hG1]
        exact getD_modify_player_self g idx _ hidx
      have hneG : ∀ t, t ≠ idx →
          G1.players.getD t default = g.players.getD t default := by
        intro t ht
        rw [hG1]
        exact getD_modify_player_ne g idx _ t ht
      obtain ⟨i1, i2, i3, i4, i5, i6, i7, i8, i9, i10, i11⟩ :=
        ih ((idx + 1) % g.players.length) G1 c' hcurseG
          (by rw [hlenG]; exact Nat.mod_lt _ hpos)
      rw [hlenG] at i10 i11
      refine ⟨?_, ?_, ?_, ?_, ?_, ?_, ?_, ?_, ?_, ?_, ?_⟩
      · rw [i1, hlenG]
      · rw [i2, hG1]
      · rw [i3, hG1]
      · rw [i4, hG1]
      · rw [i5]
        congr 1
        omega
      · intro other ho
        rw [i6 other ho, hG1]
        exact decrement_lookup_ne g.supply.curses "Curse" other ho
      · rw [i7, hG1]
      · rw [i8, hG1]
      · rw [i9, hG1]
      · intro t ht
        have htne : t ≠ idx := by
          have h2 := ht 0 (Nat.succ_pos k)
          rw [h0] at h2
          exact fun h3 => h2 h3.symm
        have hmiss : ∀ j, j < k →
            ((idx + 1) % g.players.length + j) % g.players.length ≠ t := by
          intro j hj
          rw [mod_shift]
          exact ht (j + 1) (Nat.succ_lt_succ hj)
        rw [i10 t hmiss]
        exact hneG t htne
      · intro j hj hdist
        cases j with
        | zero =>
          rw [h0, if_pos (Nat.succ_pos c')]
          have hmiss : ∀ j2, j2 < k →
              ((idx + 1) % g.players.length + j2) % g.players.length ≠ idx := by
            intro j2 hj2
            rw [mod_shift]
            have h2 := hdist (j2 + 1) (Nat.succ_lt_succ hj2) (Nat.succ_ne_zero j2)
            rw [h0] at h2
            exact h2
          rw [i10 idx hmiss]
          exact hselfG
        | succ j' =>
          have hdist' : ∀ j2, j2 < k → j2 ≠ j' →
              ((idx + 1) % g.players.length + j2) % g.players.length
                ≠ ((idx + 1) % g.players.length + j') % g.players.length := by
            intro j2 hj2 hne2
            rw [mod_shift, mod_shift]
            exact hdist (j2 + 1) (Nat.succ_lt_succ hj2)
              (fun h => hne2 (Nat.succ_injective h))
          have hstep := i11 j' (Nat.lt_of_succ_lt_succ hj) hdist'
          rw [mod_shift] at hstep
          have hne0 : (idx + (j' + 1)) % g.players.length ≠ idx := by
            have h2 := hdist 0 (Nat.succ_pos k) (Nat.succ_ne_zero j').symm
            rw [h0] at h2
            exact fun h3 => h2 h3.symm
          rw [hstep, hneG _ hne0]
          by_cases hlt : j' < c'
          · rw [if_pos hlt, if_pos (Nat.succ_lt_succ hlt)]
          · rw [if_neg hlt, if_neg (fun h => hlt (Nat.lt_of_succ_lt_succ h))]

/-- A seat visited by the witch loop is never the actor's seat. -/
theorem visit_ne_actor (n cur j : Nat) (hcur : cur < n) (hj : j < n - 1) :
    (cur + 1 + j) % n ≠ cur := by
  intro heq
  have h2 : (cur + (1 + j)) % n = (cur + 0) % n := by
    have e1 : cur + (1 + j) = cur + 1 + j := by omega
    rw [e1, heq, Nat.add_zero, Nat.mod_eq_of_lt hcur]
  exact (add_mod_cancel_distinct n cur (1 + j) 0 (by omega) (by omega) (by omega)) h2

/-- C8: playing Witch draws 2 cards for the actor and visits the other
`n - 1` seats in circular order from `(current + 1) mod n`; each visited
seat gains one Curse into its discard while the pile lasts (the `j`-th
visit succeeds exactly when `j < c`), later seats are skipped silently
with no error, the Curse pile drops once per gained Curse, every other
supply pile is untouched, and the actor never gains a Curse. -/
theorem witch_effect (sh : List Card → List Card) (g : Game) (c : Nat)
    (hcur : g.curr_player_index < g.players.length)
    (hc : g.supply.curses.lookup "Curse" = some c) :
    (g.handle_action sh Action.Witch).1 = Outcome.ok
    ∧ ((g.handle_action sh Action.Witch).2).players.length = g.players.length
    ∧ ((g.handle_action sh Action.Witch).2).players.getD g.curr_player_index default
        = (g.players.getD g.curr_player_index default).draw sh 2
    ∧ ((g.handle_action sh Action.Witch).2).supply.curses.lookup "Curse"
        = some (c - min c (g.players.length - 1))
    ∧ ((g.handle_action sh Action.Witch).2).supply.treasures = g.supply.treasures
    ∧ ((g.handle_action sh Action.Witch).2).supply.actions = g.supply.actions
    ∧ ((g.handle_action sh Action.Witch).2).supply.victories = g.supply.victories
    ∧ (∀ j, j < g.players.length - 1 →
        ((g.handle_action sh Action.Witch).2).players.getD
            ((g.curr_player_index + 1 + j) % g.players.length) default
          = if j < c
            then (g.players.getD ((g.curr_player_index + 1 + j) % g.players.length)
                default).add_to_discard (Card.curse CurseCard.Curse)
            else g.players.getD
                ((g.curr_player_index + 1 + j) % g.players.length) default) := by
  have hpos : 0 < g.players.length := Nat.lt_of_le_of_lt (Nat.zero_le _) hcur
  have hred : g.handle_action sh Action.Witch
      = (Outcome.ok, witchLoop ((g.modify_current (Player.draw sh 2)).players.length - 1)
          ((g.curr_player_index + 1) % (g.modify_current (Player.draw sh 2)).players.length)
          (g.modify_current (Player.draw sh 2))) := rfl
  rw [hred]
  simp only [length_modify_current]
  obtain ⟨w1, w2, w3, w4, w5, w6, w7, w8, w9, w10, w11⟩ :=
    witchLoop_spec (g.players.length - 1)
      ((g.curr_player_index + 1) % g.players.length)
      (g.modify_current (Player.draw sh 2)) c hc
      (by rw [length_modify_current]; exact Nat.mod_lt _ hpos)
  rw [length_modify_current] at w1 w10 w11
  refine ⟨?_, w1, ?_, w5, w2, w3, w4, ?_⟩
  · trivial
  · have hmiss : ∀ j, j < g.players.length - 1 →
        ((g.curr_player_index + 1) % g.players.length + j) % g.players.length
          ≠ g.curr_player_index := by
      intro j hj
      rw [Nat.mod_add_mod]
      exact visit_ne_actor g.players.length g.curr_player_index j hcur hj
    rw [w10 g.curr_player_index hmiss]
    exact current_modify_current g _ hcur
  · intro j hj
    have hdist : ∀ j2, j2 < g.players.length - 1 → j2 ≠ j →
        ((g.curr_player_index + 1) % g.players.length + j2) % g.players.length
          ≠ ((g.curr_player_index + 1) % g.players.length + j) % g.players.length := by
      intro j2 hj2 hne2
      rw [Nat.mod_add_mod, Nat.mod_add_mod]
      exact add_mod_cancel_distinct g.players.length (g.curr_player_index + 1) j2 j
        (by omega) (by omega) hne2
    have hstep := w11 j hj hdist
    rw [Nat.mod_add_mod] at hstep
    have hne0 : (g.curr_player_index + 1 + j) % g.players.length ≠ g.curr_player_index :=
      visit_ne_actor g.players.length g.curr_player_index j hcur hj
    rw [hstep, getD_modify_current_ne g _ _ hne0]

/-- A seat-`i` idle player with an empty collection. -/
def mkSeat (i : Nat) : Player :=
  { index := i, hand := [], deck := [], discard := [], played := [], trashed := [],
    last_discarded_card := none, actions := 1, buys := 1, coins := 0 }

/-- A three-player game in the action phase with a single Curse left. -/
def witchGame : Game :=
  { players := [mkSeat 0, mkSeat 1, mkSeat 2],
    supply := { treasures := [("Copper", 60)], actions := [("Moat", 10)],
                victories := [("Province", 10)], curses := [("Curse", 1)] },
    curr_player_index := 0,
    game_phase := GamePhase.ActionPhase,
    winner := none }

/-- Witness for C8 at a three-player game with one Curse in the pile:
the first visited seat gains it, the second is skipped silently. -/
theorem witch_effect_witness :
    witchGame.curr_player_index < witchGame.players.length
    ∧ witchGame.supply.curses.lookup "Curse" = some 1
    ∧ (witchGame.handle_action id Action.Witch).1 = Outcome.ok
    ∧ ((witchGame.handle_action id Action.Witch).2).supply.curses.lookup "Curse"
        = some (1 - min 1 (witchGame.players.length - 1))
    ∧ (∀ j, j < witchGame.players.length - 1 →
        ((witchGame.handle_action id Action.Witch).2).players.getD
            ((witchGame.curr_player_index + 1 + j) % witchGame.players.length) default
          = if j < 1
            then (witchGame.players.getD
                ((witchGame.curr_player_index + 1 + j) % witchGame.players.length)
                default).add_to_discard (Card.curse CurseCard.Curse)
            else witchGame.players.getD
                ((witchGame.curr_player_index + 1 + j) % witchGame.players.length) default) :=
  ⟨by decide, by decide,
    (witch_effect id witchGame 1 (by decide) (by decide)).1,
    (witch_effect id witchGame 1 (by decide) (by decide)).2.2.2.1,
    (witch_effect id witchGame 1 (by decide) (by decide)).2.2.2.2.2.2.2⟩

/-- The curse loop never touches the game phase. -/
theorem witchLoop_phase (k : Nat) : ∀ (idx : Nat) (g : Game),
    (witchLoop k idx g).game_phase = g.game_phase := by
  induction k with
  | zero =>
    intro idx g
    rfl
  | succ k ih =>
    intro idx g
    rw [witchLoop]
    dsimp only
    rw [ih]
    split
    · rfl
    · rfl

/-- No card effect changes the game phase. -/
theorem handle_action_phase (sh : List Card → List Card) (g : Game) (a : Action) :
    ((g.handle_action sh a).2).game_phase = g.game_phase := by
  cases a <;> first | rfl | exact witchLoop_phase _ _ _

/-- Phase preservation, phrased on the returned pair. -/
theorem handle_action_phase_snd (sh : List Card → List Card) (g g' : Game) (a : Action)
    (o : Outcome) (h : g.handle_action sh a = (o, g')) : g'.game_phase = g.game_phase := by
  have h2 := handle_action_phase sh g a
  rw [h] at h2
  exact h2

/-- The only error `handle_action` ever *returns* is the Gardens
rejection, and it returns the state untouched (`todo!()` arms panic
instead of returning). -/
theorem handle_action_err (sh : List Card → List Card) (g : Game) (a : Action)
    (e : GameError) (g' : Game)
    (h : g.handle_action sh a = (Outcome.err e, g')) :
    a = Action.Gardens ∧ e = GameError.InvalidMove "Cannot play Gardens as action"
      ∧ g' = g := by
  cases a <;> simp only [Game.handle_action, Prod.mk.injEq] at h <;>
    obtain ⟨h1, h2⟩ := h <;> cases h1 <;> exact ⟨rfl, rfl, h2.symm⟩

/-- The action-phase exit cannot fail while the phase is ActionPhase. -/
theorem action_to_treasure_err (g : Game) (e : GameError)
    (h : g.action_to_treasure_phase = Except.error e)
    (hph : g.game_phase = GamePhase.ActionPhase) : False := by
  rw [action_to_treasure_eq g hph] at h
  cases h

/-- The treasure-phase exit cannot fail while the phase is TreasurePhase. -/
theorem treasure_to_buy_err (g : Game) (e : GameError)
    (h : g.treasure_to_buy_phase = Except.error e)
    (hph : g.game_phase = GamePhase.TreasurePhase) : False := by
  rw [treasure_to_buy_eq g hph] at h
  cases h

/-- A one-player action-phase game whose current player holds one Moat
but has no actions left. -/
def actionsOutPlayer : Player :=
  { index := 0, hand := [Card.action Action.Moat], deck := [], discard := [],
    played := [], trashed := [], last_discarded_card := none,
    actions := 0, buys := 1, coins := 0 }

/-- The game around `actionsOutPlayer`. -/
def actionsOutGame : Game :=
  { players := [actionsOutPlayer],
    supply := initialSupply,
    curr_player_index := 0,
    game_phase := GamePhase.ActionPhase,
    winner := none }

/-- C1 counterexample: playing an action card with the actions counter
at 0 is rejected with "No actions left", but the card has already been
removed from the hand — the erroring move mutates the state. -/
theorem error_leaves_state_mutated :
    (actionsOutGame.accept_move id 0 (GameMove.PlayCard 0)).1
      = Outcome.err (GameError.InvalidMove "No actions left")
    ∧ ((actionsOutGame.accept_move id 0 (GameMove.PlayCard 0)).2).players.getD 0 default
        ≠ actionsOutGame.players.getD 0 default
    ∧ (((actionsOutGame.accept_move id 0 (GameMove.PlayCard 0)).2).players.getD
        0 default).hand = []
    ∧ (actionsOutGame.players.getD 0 default).hand = [Card.action Action.Moat] := by
  decide

/-- C1 amended: an erroring `accept_move` leaves the state unchanged
EXCEPT on three paths, each characterised exactly: (1) PlayCard of an
action card with 0 actions left errors after the card has been removed
from the hand; (2) PlayCard of Gardens errors after hand removal, the
actions decrement and the move to played; (3) BuyCard whose supply
decrement fails errors after the coins were already deducted (buys
untouched). -/
theorem accept_move_error_paths (sh : List Card → List Card) (g : Game) (i : Nat)
    (m : GameMove) (e : GameError)
    (herr : (g.accept_move sh i m).1 = Outcome.err e) :
    (g.accept_move sh i m).2 = g
    ∨ (∃ ci card p, m = GameMove.PlayCard ci
        ∧ g.game_phase = GamePhase.ActionPhase
        ∧ g.current_player_read_only.remove_card_from_hand ci = Except.ok (card, p)
        ∧ e = GameError.InvalidMove "No actions left"
        ∧ (g.accept_move sh i m).2 = g.modify_current (fun _ => p))
    ∨ (∃ ci card p, m = GameMove.PlayCard ci
        ∧ g.game_phase = GamePhase.ActionPhase
        ∧ g.current_player_read_only.remove_card_from_hand ci = Except.ok (card, p)
        ∧ e = GameError.InvalidMove "Cannot play Gardens as action"
        ∧ (g.accept_move sh i m).2
            = ((g.modify_current (fun _ => p)).modify_current
                (fun q => { q with actions := q.actions - 1 })).modify_current
                (Player.play_card (Card.action Action.Gardens)))
    ∨ (∃ card, m = GameMove.BuyCard card
        ∧ g.game_phase = GamePhase.BuyPhase
        ∧ g.supply.take_card card = Except.error e
        ∧ (g.accept_move sh i m).2
            = g.modify_current (fun q => { q with coins := q.coins - card.cost })) := by
  revert herr
  unfold Game.accept_move
  split
  · intro herr
    exact Or.inl rfl
  · rename_i hpi
    split
    -- ARM 1: (ActionPhase, PlayCard ci)
    · rename_i ci hph
      split
      · intro herr
        exact Or.inl rfl
      · rename_i card hget
        have hcard : g.current_player_read_only.hand[ci]? = some card := get_card_ok _ _ _ hget
        split
        · intro herr
          exact Or.inl rfl
        · -- Action card
          rename_i htype
          split
          · rename_i e2 hrem
            rw [remove_card_eq _ _ _ hcard] at hrem
            cases hrem
          · rename_i card_to_play p hrem
            rw [remove_card_eq _ _ _ hcard] at hrem
            injection hrem with hrem2
            injection hrem2 with hc1 hc2
            subst hc1
            subst hc2
            obtain ⟨a, hcais, has⟩ := as_action_of_type card htype
            rw [has]
            split
            · rename_i e2 hase
              cases hase
            · rename_i action hasok
              injection hasok with ha
              subst ha
              dsimp only
              split
              · -- actions = 0: the hand removal has already happened
                rename_i hcond
                intro herr
                injection herr with he
                exact Or.inr (Or.inl ⟨ci, card, _, rfl, hph,
                  remove_card_eq _ _ _ hcard, he.symm, rfl⟩)
              · rename_i hcond
                split
                · -- handle_action ok: the outcome cannot be an error
                  rename_i g4 hha
                  split
                  · rename_i hcond2
                    split
                    · rename_i g5 htr
                      intro herr
                      exact Outcome.noConfusion herr
                    · rename_i e2 htr
                      have h5 := handle_action_phase_snd sh _ g4 a Outcome.ok hha
                      exact (action_to_treasure_err _ _ htr (by rw [h5]; exact hph)).elim
                  · rename_i hcond2
                    intro herr
                    exact Outcome.noConfusion herr
                · -- handle_action err: the Gardens rejection
                  rename_i e1 g4 hha
                  intro herr
                  injection herr with he
                  obtain ⟨haG, heInv, hg4⟩ := handle_action_err sh _ _ e1 g4 hha
                  subst haG
                  exact Or.inr (Or.inr (Or.inl ⟨ci, card, _, rfl, hph,
                    remove_card_eq _ _ _ hcard, he.symm.trans heInv, hg4.trans rfl⟩))
                · -- handle_action panicked: not an error return
                  rename_i msg g4 hha
                  intro herr
                  exact Outcome.noConfusion herr
        · intro herr
          exact Or.inl rfl
        · intro herr
          exact Or.inl rfl
    -- ARM 2: (ActionPhase, EndActions)
    · rename_i hph
      dsimp only
      split
      · rename_i g5 htr
        intro herr
        exact Outcome.noConfusion herr
      · rename_i e2 htr
        rw [action_to_treasure_modify g _ hph] at htr
        cases htr
    -- ARM 3: (TreasurePhase, PlayCard ci)
    · rename_i ci hph
      split
      · intro herr
        exact Or.inl rfl
      · rename_i card hget
        have hcard : g.current_player_read_only.hand[ci]? = some card := get_card_ok _ _ _ hget
        split
        · -- Treasure card
          rename_i htype
          split
          · rename_i e2 hrem
            rw [remove_card_eq _ _ _ hcard] at hrem
            cases hrem
          · rename_i card_to_play p hrem
            rw [remove_card_eq _ _ _ hcard] at hrem
            injection hrem with hrem2
            injection hrem2 with hc1 hc2
            subst hc1
            subst hc2
            obtain ⟨t, hcais, has⟩ := as_treasure_of_type card htype
            rw [has]
            split
            · rename_i e2 hase
              cases hase
            · rename_i tval hasok
              injection hasok with ht
              subst ht
              dsimp only
              split
              · rename_i hcond2
                split
                · rename_i g5 htr
                  intro herr
                  exact Outcome.noConfusion herr
                · rename_i e2 htr
                  exact (treasure_to_buy_err _ _ htr hph).elim
              · rename_i hcond2
                intro herr
                exact Outcome.noConfusion herr
        · intro herr
          exact Or.inl rfl
        · intro herr
          exact Or.inl rfl
        · intro herr
          exact Or.inl rfl
    -- ARM 4: (TreasurePhase, EndTreasures)
    · rename_i hph
      split
      · rename_i g5 htr
        intro herr
        exact Outcome.noConfusion herr
      · rename_i e2 htr
        rw [treasure_to_buy_eq _ hph] at htr
        cases htr
    -- ARM 5: (BuyPhase, BuyCard card)
    · rename_i card hph
      dsimp only
      split
      · intro herr
        exact Or.inl rfl
      · rename_i hcoins
        split
        · -- supply refuses after the coins were deducted
          rename_i e1 htake
          intro herr
          injection herr with he
          refine Or.inr (Or.inr (Or.inr ⟨card, rfl, hph, ?_, rfl⟩))
          rw [← he]
          exact htake
        · rename_i s' htake
          split
          · rename_i hbuy0
            intro herr
            exact Outcome.noConfusion herr
          · rename_i hbuyne
            intro herr
            exact Outcome.noConfusion herr
    -- ARM 6: (_, EndTurn)
    · rename_i hmends
      intro herr
      exact Outcome.noConfusion herr
    -- ARM 7: catch-all
    · intro herr
      exact Or.inl rfl

/-- Witness for C1's amended theorem at the concrete no-actions game. -/
theorem accept_move_error_paths_witness :
    (actionsOutGame.accept_move id 0 (GameMove.PlayCard 0)).1
        = Outcome.err (GameError.InvalidMove "No actions left")
    ∧ ((actionsOutGame.accept_move id 0 (GameMove.PlayCard 0)).2 = actionsOutGame
      ∨ (∃ ci card p, GameMove.PlayCard 0 = GameMove.PlayCard ci
          ∧ actionsOutGame.game_phase = GamePhase.ActionPhase
          ∧ actionsOutGame.current_player_read_only.remove_card_from_hand ci
              = Except.ok (card, p)
          ∧ GameError.InvalidMove "No actions left" = GameError.InvalidMove "No actions left"
          ∧ (actionsOutGame.accept_move id 0 (GameMove.PlayCard 0)).2
              = actionsOutGame.modify_current (fun _ => p))
      ∨ (∃ ci card p, GameMove.PlayCard 0 = GameMove.PlayCard ci
          ∧ actionsOutGame.game_phase = GamePhase.ActionPhase
          ∧ actionsOutGame.current_player_read_only.remove_card_from_hand ci
              = Except.ok (card, p)
          ∧ GameError.InvalidMove "No actions left"
              = GameError.InvalidMove "Cannot play Gardens as action"
          ∧ (actionsOutGame.accept_move id 0 (GameMove.PlayCard 0)).2
              = ((actionsOutGame.modify_current (fun _ => p)).modify_current
                  (fun q => { q with actions := q.actions - 1 })).modify_current
                  (Player.play_card (Card.action Action.Gardens)))
      ∨ (∃ card, GameMove.PlayCard 0 = GameMove.BuyCard card
          ∧ actionsOutGame.game_phase = GamePhase.BuyPhase
          ∧ actionsOutGame.supply.take_card card
              = Except.error (GameError.InvalidMove "No actions left")
          ∧ (actionsOutGame.accept_move id 0 (GameMove.PlayCard 0)).2
              = actionsOutGame.modify_current
                  (fun q => { q with coins := q.coins - card.cost }))) :=
  ⟨by decide,
    accept_move_error_paths id actionsOutGame 0 (GameMove.PlayCard 0)
      (GameError.InvalidMove "No actions left") (by decide)⟩

/-- The curse loop never moves the current-player index. -/
theorem witchLoop_curr (k : Nat) : ∀ (idx : Nat) (g : Game),
    (witchLoop k idx g).curr_player_index = g.curr_player_index := by
  induction k with
  | zero =>
    intro idx g
    rfl
  | succ k ih =>
    intro idx g
    rw [witchLoop]
    dsimp only
    rw [ih]
    split
    · rfl
    · rfl

/-- No card effect moves the current-player index. -/
theorem handle_action_curr (sh : List Card → List Card) (g : Game) (a : Action) :
    ((g.handle_action sh a).2).curr_player_index = g.curr_player_index := by
  cases a <;> first | rfl | exact witchLoop_curr _ _ _

/-- Index preservation, phrased on the returned pair. -/
theorem handle_action_curr_snd (sh : List Card → List Card) (g g' : Game) (a : Action)
    (o : Outcome) (h : g.handle_action sh a = (o, g')) :
    g'.curr_player_index = g.curr_player_index := by
  have h2 := handle_action_curr sh g a
  rw [h] at h2
  exact h2

/-- A successful action-phase exit only changes the phase. -/
theorem action_to_treasure_curr (g g' : Game)
    (h : g.action_to_treasure_phase = Except.ok g') :
    g'.curr_player_index = g.curr_player_index := by
  unfold Game.action_to_treasure_phase at h
  split at h
  · injection h with h2
    rw [← h2]
  · cases h

/-- A successful treasure-phase exit only changes the phase. -/
theorem treasure_to_buy_curr (g g' : Game)
    (h : g.treasure_to_buy_phase = Except.ok g') :
    g'.curr_player_index = g.curr_player_index := by
  unfold Game.treasure_to_buy_phase at h
  split at h
  · injection h with h2
    rw [← h2]
  · cases h

/-- After `Game::end_turn`, the (new) current player is in the idle
resting state, provided every off-turn player already was. -/
theorem end_turn_new_idle (sh : List Card → List Card) (hsh : ∀ l, (sh l).Perm l)
    (g : Game) (hcur : g.curr_player_index < g.players.length)
    (hidle : ∀ j, j < g.players.length → j ≠ g.curr_player_index →
      idleOK (g.players.getD j default)) :
    idleOK ((g.end_turn sh).current_player_read_only) := by
  have hfields : (g.end_turn sh).players = (g.modify_current (Player.end_turn sh)).players
      ∧ (g.end_turn sh).curr_player_index = (g.curr_player_index + 1) % g.players.length := by
    unfold Game.end_turn
    simp only [Game.modify_current, List.length_set]
    split
    · split
      · exact ⟨rfl, rfl⟩
      · exact ⟨rfl, rfl⟩
    · exact ⟨rfl, rfl⟩
  obtain ⟨hp, hc⟩ := hfields
  have hNpos : 0 < g.players.length := Nat.lt_of_le_of_lt (Nat.zero_le _) hcur
  have hnewlt : (g.curr_player_index + 1) % g.players.length < g.players.length :=
    Nat.mod_lt _ hNpos
  have hget : ∀ j, (g.end_turn sh).players.getD j default
      = if j = g.curr_player_index then (g.current_player_read_only.end_turn sh)
        else g.players.getD j default := by
    intro j
    rw [hp]
    by_cases hjc : j = g.curr_player_index
    · subst hjc
      rw [if_pos rfl]
      exact current_modify_current g _ hcur
    · rw [if_neg hjc]
      exact getD_modify_current_ne g _ j hjc
  have hnewplayer : (g.end_turn sh).current_player_read_only
      = (if (g.curr_player_index + 1) % g.players.length = g.curr_player_index
          then g.current_player_read_only.end_turn sh
          else g.players.getD ((g.curr_player_index + 1) % g.players.length) default) := by
    show (g.end_turn sh).players.getD (g.end_turn sh).curr_player_index default = _
    rw [hc, hget]
  rw [hnewplayer]
  by_cases hsame : (g.curr_player_index + 1) % g.players.length = g.curr_player_index
  · rw [if_pos hsame]
    exact idleOK_end_turn sh hsh g.current_player_read_only
  · rw [if_neg hsame]
    exact hidle _ hnewlt hsame

/-- A submitted move that hands the turn to a different seat (an
explicit EndTurn, or the automatic turn end when the last buy is spent)
leaves the new current player in the reset state. -/
theorem accept_move_turn_pass (sh : List Card → List Card) (hsh : ∀ l, (sh l).Perm l)
    (g : Game) (hInv : Inv g) (i : Nat) (m : GameMove)
    (hend : ((g.accept_move sh i m).2).curr_player_index ≠ g.curr_player_index) :
    idleOK (((g.accept_move sh i m).2).current_player_read_only) := by
  revert hend
  unfold Game.accept_move
  split
  · intro hend
    exact absurd rfl hend
  · rename_i hpi
    split
    -- ARM 1: (ActionPhase, PlayCard ci)
    · rename_i ci hph
      split
      · intro hend
        exact absurd rfl hend
      · rename_i card hget
        have hcard : g.current_player_read_only.hand[ci]? = some card := get_card_ok _ _ _ hget
        split
        · intro hend
          exact absurd rfl hend
        · rename_i htype
          split
          · rename_i e2 hrem
            rw [remove_card_eq _ _ _ hcard] at hrem
            cases hrem
          · rename_i card_to_play p hrem
            rw [remove_card_eq _ _ _ hcard] at hrem
            injection hrem with hrem2
            injection hrem2 with hc1 hc2
            subst hc1
            subst hc2
            obtain ⟨a, hcais, has⟩ := as_action_of_type card htype
            rw [has]
            split
            · rename_i e2 hase
              cases hase
            · rename_i action hasok
              injection hasok with ha
              subst ha
              dsimp only
              split
              · intro hend
                exact absurd rfl hend
              · rename_i hcond
                split
                · rename_i g4 hha
                  split
                  · rename_i hcond2
                    split
                    · rename_i g5 htr
                      intro hend
                      refine absurd ?_ hend
                      show g5.curr_player_index = g.curr_player_index
                      rw [action_to_treasure_curr _ _ htr,
                        handle_action_curr_snd sh _ g4 a _ hha]
                      rfl
                    · rename_i e2 htr
                      have h5 := handle_action_phase_snd sh _ g4 a Outcome.ok hha
                      exact (action_to_treasure_err _ _ htr (by rw [h5]; exact hph)).elim
                  · rename_i hcond2
                    intro hend
                    refine absurd ?_ hend
                    show g4.curr_player_index = g.curr_player_index
                    rw [handle_action_curr_snd sh _ g4 a _ hha]
                    rfl
                · rename_i e1 g4 hha
                  intro hend
                  refine absurd ?_ hend
                  show g4.curr_player_index = g.curr_player_index
                  rw [handle_action_curr_snd sh _ g4 a _ hha]
                  rfl
                · rename_i msg g4 hha
                  intro hend
                  refine absurd ?_ hend
                  show g4.curr_player_index = g.curr_player_index
                  rw [handle_action_curr_snd sh _ g4 a _ hha]
                  rfl
        · intro hend
          exact absurd rfl hend
        · intro hend
          exact absurd rfl hend
    -- ARM 2: (ActionPhase, EndActions)
    · rename_i hph
      dsimp only
      split
      · rename_i g5 htr
        intro hend
        refine absurd ?_ hend
        show g5.curr_player_index = g.curr_player_index
        rw [action_to_treasure_curr _ _ htr]
        rfl
      · rename_i e2 htr
        rw [action_to_treasure_modify g _ hph] at htr
        cases htr
    -- ARM 3: (TreasurePhase, PlayCard ci)
    · rename_i ci hph
      split
      · intro hend
        exact absurd rfl hend
      · rename_i card hget
        have hcard : g.current_player_read_only.hand[ci]? = some card := get_card_ok _ _ _ hget
        split
        · rename_i htype
          split
          · rename_i e2 hrem
            rw [remove_card_eq _ _ _ hcard] at hrem
            cases hrem
          · rename_i card_to_play p hrem
            rw [remove_card_eq _ _ _ hcard] at hrem
            injection hrem with hrem2
            injection hrem2 with hc1 hc2
            subst hc1
            subst hc2
            obtain ⟨t, hcais, has⟩ := as_treasure_of_type card htype
            rw [has]
            split
            · rename_i e2 hase
              cases hase
            · rename_i tval hasok
              injection hasok with ht
              subst ht
              dsimp only
              split
              · rename_i hcond2
                split
                · rename_i g5 htr
                  intro hend
                  refine absurd ?_ hend
                  show g5.curr_player_index = g.curr_player_index
                  rw [treasure_to_buy_curr _ _ htr]
                  rfl
                · rename_i e2 htr
                  exact (treasure_to_buy_err _ _ htr hph).elim
              · rename_i hcond2
                intro hend
                exact absurd rfl hend
        · intro hend
          exact absurd rfl hend
        · intro hend
          exact absurd rfl hend
        · intro hend
          exact absurd rfl hend
    -- ARM 4: (TreasurePhase, EndTreasures)
    · rename_i hph
      split
      · rename_i g5 htr
        intro hend
        refine absurd ?_ hend
        show g5.curr_player_index = g.curr_player_index
        rw [treasure_to_buy_curr _ _ htr]
      · rename_i e2 htr
        rw [treasure_to_buy_eq _ hph] at htr
        cases htr
    -- ARM 5: (BuyPhase, BuyCard card)
    · rename_i card hph
      dsimp only
      split
      · intro hend
        exact absurd rfl hend
      · rename_i hcoins
        split
        · rename_i e1 htake
          intro hend
          exact absurd rfl hend
        · rename_i s' htake
          split
          · rename_i hbuy0
            intro hend
            refine end_turn_new_idle sh hsh _ ?_ ?_
            · simp only [Game.modify_current, List.length_set]
              exact hInv.curr_lt
            · intro j hj hne
              simp only [Game.modify_current, List.length_set] at hj hne
              simp only [Game.modify_current, List.getD_eq_getElem?_getD,
                List.getElem?_set_ne (fun h2 => hne h2.symm)]
              rw [← List.getD_eq_getElem?_getD]
              exact hInv.idle j hj hne
          · rename_i hbuyne
            intro hend
            exact absurd rfl hend
    -- ARM 6: (_, EndTurn)
    · rename_i hmends
      intro hend
      exact end_turn_new_idle sh hsh g hInv.curr_lt hInv.idle
    -- ARM 7: catch-all
    · intro hend
      exact absurd rfl hend

/-- C5: in any reachable game, after a submitted move that hands the
turn to a new seat — an explicit EndTurn, or the automatic turn end when
the last buy is spent — the new current player's actions, buys and
coins are exactly 1, 1 and 0, and their hand has exactly 5 cards, or
fewer only when deck and discard were both exhausted by the closing
draw. -/
theorem turn_reset_idle (sh : List Card → List Card) (hsh : ∀ l, (sh l).Perm l)
    (N first : Nat) (hf : first < N) (g : Game) (hr : Reachable sh N first g)
    (i : Nat) (m : GameMove)
    (hend : ((g.accept_move sh i m).2).curr_player_index ≠ g.curr_player_index) :
    idleOK (((g.accept_move sh i m).2).current_player_read_only) :=
  accept_move_turn_pass sh hsh g (reachable_inv sh hsh N first hf g hr) i m hend

/-- Witness for C5: an explicit EndTurn in a fresh two-player game. -/
theorem turn_reset_idle_witness :
    (∀ l : List Card, (id l).Perm l) ∧ (0 : Nat) < 2
    ∧ Reachable id 2 0 (Game.initialise_game id 2 0)
    ∧ (((Game.initialise_game id 2 0).accept_move id 0 GameMove.EndTurn).2).curr_player_index
        ≠ (Game.initialise_game id 2 0).curr_player_index
    ∧ idleOK ((((Game.initialise_game id 2 0).accept_move id 0
        GameMove.EndTurn).2).current_player_read_only) :=
  ⟨fun l => List.Perm.refl l, by decide, Reachable.base, by decide,
    turn_reset_idle id (fun l => List.Perm.refl l) 2 0 (by decide) _ Reachable.base 0
      GameMove.EndTurn (by decide)⟩

end Dominion
